import Mathlib

/-!
Verification development for the content-import pipeline of the
Obsidian-OSINT-Entity-Extractor plugin.

The TypeScript sources are shallowly embedded: JavaScript strings are
modelled as Lean `String`s (sequences of characters, accessed through
`String.data`); all string primitives used by the code (`trim`, `split`,
`indexOf`, `slice`, `replace`, `toLowerCase`, ...) are re-implemented here
over `List Char` with JavaScript semantics.  External collaborators (the
WHATWG URL parser, PapaParse, the YAML parser, the PDF parser, the HTTP
transport and the model provider) are passed in as explicit function
arguments describing their observable results, exactly as the spec treats
them.  Asynchronous code is modelled by explicit result values; a thrown
exception is an `Except.error`.
-/

/-! ## Generic JavaScript string semantics helpers -/

/-- Characters treated as whitespace (the ASCII part of the JavaScript
whitespace class used by `trim` and the regex class `\s`). -/
def jsWs (c : Char) : Bool :=
  c.toNat = 32 || c.toNat = 9 || c.toNat = 10 || c.toNat = 13 || c.toNat = 11 || c.toNat = 12

/-- JavaScript `String.prototype.trim` on a character list. -/
def trimL (l : List Char) : List Char :=
  ((l.dropWhile jsWs).reverse.dropWhile jsWs).reverse

/-- JavaScript `String.prototype.trim`. -/
def jsTrim (s : String) : String := ⟨trimL s.data⟩

/-- JavaScript `toLowerCase` on one character (ASCII range). -/
def jsToLowerChar (c : Char) : Char :=
  if 65 ≤ c.toNat ∧ c.toNat ≤ 90 then Char.ofNat (c.toNat + 32) else c

/-- JavaScript `String.prototype.toLowerCase` (ASCII model). -/
def jsToLower (s : String) : String := ⟨s.data.map jsToLowerChar⟩

/-- Does the pattern `pat` occur at the head of `l`?  (JavaScript
`startsWith` restricted to the head position.) -/
def startsWithL : List Char → List Char → Bool
  | [], _ => true
  | _ :: _, [] => false
  | p :: ps, c :: cs => p = c && startsWithL ps cs

/-- JavaScript `String.prototype.startsWith`. -/
def jsStartsWith (s pat : String) : Bool := startsWithL pat.data s.data

/-- Index of the first occurrence of `pat` in `l`
(JavaScript `String.prototype.indexOf`, `none` for `-1`). -/
def firstMatch (pat : List Char) : List Char → Option Nat
  | [] => if pat.isEmpty then some 0 else none
  | c :: t => if startsWithL pat (c :: t) then some 0 else (firstMatch pat t).map (· + 1)

/-- JavaScript `String.prototype.includes`. -/
def jsIncludes (s pat : String) : Bool := (firstMatch pat.data s.data).isSome

/-- JavaScript `String.prototype.endsWith`. -/
def jsEndsWith (s pat : String) : Bool := startsWithL pat.data.reverse s.data.reverse

/-- JavaScript `s.slice(a, b)` for `0 ≤ a ≤ b` (character positions). -/
def jsSlice (s : String) (a b : Nat) : String := ⟨(s.data.take b).drop a⟩

/-- JavaScript `s.slice(a)` (from `a` to the end). -/
def jsSliceFrom (s : String) (a : Nat) : String := ⟨s.data.drop a⟩

/-- State-machine worker for `replaceRuns`: `inRun` records whether the
previous character was part of a run already replaced. -/
def replaceRunsGo (p : Char → Bool) (r : Char) : Bool → List Char → List Char
  | _, [] => []
  | inRun, c :: t =>
    if p c then
      if inRun then replaceRunsGo p r true t
      else r :: replaceRunsGo p r true t
    else c :: replaceRunsGo p r false t

/-- Replace every maximal run of characters satisfying `p` by the single
character `r` (the JavaScript regex replace `X+` → `r` for a character
class `X`). -/
def replaceRuns (p : Char → Bool) (r : Char) (l : List Char) : List Char :=
  replaceRunsGo p r false l

/-- JavaScript `split(",")` on a character list: splitting an empty string
yields one empty piece. -/
def splitOnCommaL : List Char → List (List Char)
  | [] => [[]]
  | c :: t =>
    if c = ',' then [] :: splitOnCommaL t
    else
      match splitOnCommaL t with
      | [] => [[c]]
      | h :: r => (c :: h) :: r

/-- JavaScript `Array.prototype.join(",")` over strings. -/
def joinCommaL : List (List Char) → List Char
  | [] => []
  | [p] => p
  | p :: q :: rest => p ++ ',' :: joinCommaL (q :: rest)

/-- JavaScript `list.join(",")`. -/
def joinComma (l : List String) : String := ⟨joinCommaL (l.map String.data)⟩

/-! ## Tag normalizer (`tags.ts`, function `normalizeTags`) -/

/-- Character class `[a-z0-9-]` of the slug alphabet. -/
def isSlugChar (c : Char) : Bool :=
  c.toNat = 45 || (97 ≤ c.toNat && c.toNat ≤ 122) || (48 ≤ c.toNat && c.toNat ≤ 57)

/-- Hyphen test, the regex class `[-]`. -/
def isHyphen (c : Char) : Bool := c = '-'

/-- The regex class `[\s_]` (code point 95 is `_`). -/
def isWsU (c : Char) : Bool := jsWs c || c.toNat = 95

/-- `tag.replace(/^#/, "")`: drop a single leading `#`. -/
def dropLeadingHash (l : List Char) : List Char :=
  match l with
  | [] => []
  | c :: t => if c = '#' then t else c :: t

/-- `slug.replace(/[^a-z0-9-]/g, "-")`: every character outside the slug
alphabet becomes one hyphen. -/
def badToHyphen (c : Char) : Char := if isSlugChar c then c else '-'

/-- Strip leading and trailing hyphens: `replace(/^-+|-+$/g, "")`. -/
def trimHyphens (l : List Char) : List Char :=
  ((l.dropWhile isHyphen).reverse.dropWhile isHyphen).reverse

/-- The per-tag slug transformation chain of `normalizeTags`:
drop one leading `#`, lowercase, collapse `[\s_]+` runs to `-`, map
characters outside `[a-z0-9-]` to `-`, collapse `-+` runs, trim hyphens. -/
def slugifyL (l : List Char) : List Char :=
  trimHyphens
    (replaceRuns isHyphen '-'
      ((replaceRuns isWsU '-' ((dropLeadingHash l).map jsToLowerChar)).map badToHyphen))

/-- De-duplicate, preserving first-seen order (the `seen` set loop). -/
def dedupFirst (seen : List (List Char)) : List (List Char) → List (List Char)
  | [] => []
  | x :: t => if x ∈ seen then dedupFirst seen t else x :: dedupFirst (x :: seen) t

/-- The `slugs` intermediate of `normalizeTags`:
`input.split(",").map(trim).filter(Boolean).map(slug).filter(Boolean)`. -/
def slugsOfL (input : String) : List (List Char) :=
  ((((splitOnCommaL input.data).map trimL).filter (fun l => !l.isEmpty)).map
      slugifyL).filter (fun l => !l.isEmpty)

/-- Embedding of `normalizeTags` from `tags.ts`. -/
def normalizeTags (input : String) : List String :=
  if input = "" then []
  else (dedupFirst [] (slugsOfL input)).map (fun l => (⟨l⟩ : String))

/-! ## Text truncation (`trimText` in `extract.ts` and, identically, in `pdf.ts`) -/

/-- The truncation marker appended by `trimText`. -/
def truncationMarker : String := "\n\n[truncated]"

/-- Embedding of `trimText` (same source in `extract.ts` lines 17-20 and
`pdf.ts` lines 117-120): `text.slice(0, maxChars) + "\n\n[truncated]"`
when the text is longer than `maxChars`. -/
def trimText (text : String) (maxChars : Nat) : String :=
  if text.length ≤ maxChars then text
  else (⟨text.data.take maxChars⟩ : String) ++ truncationMarker

/-- No two adjacent hyphens. -/
def noDouble : List Char → Bool
  | a :: b :: t => !(isHyphen a && isHyphen b) && noDouble (b :: t)
  | _ => true

/-- Canonical slugs: nonempty, over `[a-z0-9-]`, no `--`, no hyphen at
either end.  Every output of `normalizeTags` is canonical, and the slug
transformation fixes canonical strings. -/
def canonB (l : List Char) : Bool :=
  !l.isEmpty && l.all isSlugChar && noDouble l &&
    !(isHyphen (l.headD 'x')) && !(isHyphen (l.getLastD 'x'))

/-! ## Content-type detection and PDF extraction (`pdf.ts`)

The WHATWG `new URL` constructor, `decodeURIComponent`, and the unpdf
parser are external collaborators; they enter as function arguments
(`parseUrl`, `decode`, `parser`).  `parseUrl url = none` models the
constructor throwing. -/

/-- Observable result of `new URL(s)`: the fields the code reads. -/
structure JsUrl where
  protocol : String
  hostname : String
  pathname : String
  searchParams : List (String × String)
deriving DecidableEq

/-- Embedding of `isPdfUrl` (`pdf.ts` lines 10-23). -/
def isPdfUrl (parseUrl : String → Option JsUrl) (url : String) : Bool :=
  match parseUrl url with
  | none => false
  | some u =>
    if jsEndsWith (jsToLower u.pathname) ".pdf" then true
    else
      match u.searchParams.lookup "format" with
      | some f => jsToLower f == "pdf"
      | none => false

/-- Embedding of `isPdfContentType` (`pdf.ts` lines 28-30). -/
def isPdfContentType (contentType : String) : Bool :=
  jsIncludes (jsToLower contentType) "application/pdf"

/-- Detection outcome `{isPdf, contentType}`. -/
structure DetectResult where
  isPdf : Bool
  contentType : String
deriving DecidableEq

/-- Observable result of the HEAD probe: the response headers. -/
structure HeadResp where
  headers : List (String × String)
deriving DecidableEq

/-- Embedding of `detectContentType` (`pdf.ts` lines 35-57).  `head` is the
result of the HEAD probe (`Except.error` models any request failure); the
second component of the result records whether that probe was consulted. -/
def detectContentType (parseUrl : String → Option JsUrl)
    (head : Except Unit HeadResp) (url : String) : DetectResult × Bool :=
  if isPdfUrl parseUrl url then ({ isPdf := true, contentType := "application/pdf" }, false)
  else
    match head with
    | .ok resp =>
      let contentType := (resp.headers.lookup "content-type").getD ""
      ({ isPdf := isPdfContentType contentType, contentType := contentType }, true)
    | .error _ => ({ isPdf := false, contentType := "text/html" }, true)

/-- An HTTP response carrying a byte buffer (`requestUrl` result). -/
structure HttpBufResp where
  status : Nat
  buffer : List Nat
deriving DecidableEq

/-- Failure modes of `fetchPdfAsArrayBuffer`. -/
inductive PdfFetchErr
  | httpStatus (status : Nat)
  | rangeErr
  | invalidPdf
deriving DecidableEq

/-- The 5 signature bytes of `"%PDF-"`. -/
def pdfSignature : List Nat := [37, 80, 68, 70, 45]

/-- Embedding of `fetchPdfAsArrayBuffer` (`pdf.ts` lines 62-83) applied to
the transport's response.  `new Uint8Array(buffer, 0, n)` throws a
`RangeError` when the buffer holds fewer than `n` bytes; the code builds a
5-byte header view and, in the failure branch, a 100-byte preview view. -/
def fetchPdfAsArrayBuffer (resp : HttpBufResp) : Except PdfFetchErr (List Nat) :=
  if 400 ≤ resp.status then .error (.httpStatus resp.status)
  else if resp.buffer.length < 5 then .error .rangeErr
  else if resp.buffer.take 5 ≠ pdfSignature then
    if resp.buffer.length < 100 then .error .rangeErr else .error .invalidPdf
  else .ok resp.buffer

/-- `meta.info` fields read by the code (`undefined` is `none`). -/
structure PdfMetaInfo where
  author : Option String
  creationDate : Option String
  title : Option String
deriving DecidableEq

/-- Observable behaviour of the parsed PDF document: page count, per-page
text, `getMeta` outcome (`none` models a throw, tolerated by the code), and
whether `extractText` succeeds. -/
structure PdfDoc where
  numPages : Nat
  pages : List String
  metaInfo : Option PdfMetaInfo
  textOk : Bool
deriving DecidableEq

/-- Model of unpdf `extractText(pdf, { mergePages: true })`: the text of all
pages of the document merged into one string — the repository invokes it on
the whole document with no page restriction. -/
def extractTextMerged (doc : PdfDoc) : Except Unit String :=
  if doc.textOk then .ok (String.join doc.pages) else .error ()

/-- Embedding of `guessSource` (`pdf.ts` lines 88-95):
hostname with one leading `www.` stripped, `""` on parse failure. -/
def guessSource (parseUrl : String → Option JsUrl) (url : String) : String :=
  match parseUrl url with
  | none => ""
  | some u => if jsStartsWith u.hostname "www." then ⟨u.hostname.data.drop 4⟩ else u.hostname

/-- JavaScript `split("/")` on a character list. -/
def splitOnSlashL : List Char → List (List Char)
  | [] => [[]]
  | c :: t =>
    if c = '/' then [] :: splitOnSlashL t
    else
      match splitOnSlashL t with
      | [] => [[c]]
      | h :: r => (c :: h) :: r

/-- The regex class `[_-]`. -/
def isUnderscoreOrHyphen (c : Char) : Bool := c = '_' || c = '-'

/-- Embedding of `guessTitleFromUrl` (`pdf.ts` lines 100-112): last path
segment, `.pdf` extension stripped case-insensitively, URL-decoded
(`decode s = none` models `decodeURIComponent` throwing, caught by the
enclosing try), `[_-]+` runs turned into spaces, trimmed. -/
def guessTitleFromUrl (parseUrl : String → Option JsUrl)
    (decode : String → Option String) (url : String) : String :=
  match parseUrl url with
  | none => ""
  | some u =>
    let filename : String := ⟨(splitOnSlashL u.pathname.data).getLastD []⟩
    let stripped : String :=
      if jsEndsWith (jsToLower filename) ".pdf" then
        ⟨filename.data.take (filename.data.length - 4)⟩
      else filename
    match decode stripped with
    | none => ""
    | some decoded => jsTrim ⟨replaceRuns isUnderscoreOrHyphen ' ' decoded.data⟩

/-- The regex class `[,;&]` of the author-splitting pattern. -/
def isSepChar (c : Char) : Bool := c = ',' || c = ';' || c = '&'

/-- Try to match the alternative `\s+and\s+` (case-insensitive) at the head
of the list; on success return the remainder after the match. -/
def matchWsAndWs (l : List Char) : Option (List Char) :=
  if (l.takeWhile jsWs).isEmpty then none
  else
    match l.dropWhile jsWs with
    | a :: n :: d :: rest =>
      if jsToLowerChar a = 'a' ∧ jsToLowerChar n = 'n' ∧ jsToLowerChar d = 'd' then
        if (rest.takeWhile jsWs).isEmpty then none
        else some (rest.dropWhile jsWs)
      else none
    | _ => none

/-- Fuelled scanner for `split(/[,;&]|\s+and\s+/i)`: leftmost match first,
scanning resumes after each match.  Any fuel of at least the input length
gives the full split. -/
def splitAuthorsGo : Nat → List Char → List Char → List (List Char)
  | 0, cur, _ => [cur.reverse]
  | _ + 1, cur, [] => [cur.reverse]
  | fuel + 1, cur, c :: t =>
    if isSepChar c then cur.reverse :: splitAuthorsGo fuel [] t
    else
      match matchWsAndWs (c :: t) with
      | some rest => cur.reverse :: splitAuthorsGo fuel [] rest
      | none => splitAuthorsGo fuel (c :: cur) t

/-- Embedding of the author split of `pdf.ts` lines 166-171:
`authorStr.split(/[,;&]|\s+and\s+/i).map(trim).filter(Boolean)`. -/
def splitAuthorsPdf (s : String) : List String :=
  ((((splitAuthorsGo (s.data.length + 1) [] s.data).map trimL).filter
      (fun l => !l.isEmpty)).map (fun l => (⟨l⟩ : String)))

/-- Digit class `\d`. -/
def isDigit (c : Char) : Bool := 48 ≤ c.toNat && c.toNat ≤ 57

/-- Try to match `D:(\d{4})(\d{2})(\d{2})` at the head of the list. -/
def matchPdfDate (l : List Char) : Option (List Char × List Char × List Char) :=
  match l with
  | 'D' :: ':' :: rest =>
    let ds := rest.take 8
    if ds.length = 8 ∧ ds.all isDigit then
      some (ds.take 4, (ds.drop 4).take 2, (ds.drop 6).take 2)
    else none
  | _ => none

/-- First match of the PDF-date regex anywhere in the string
(`dateStr.match(/D:(\d{4})(\d{2})(\d{2})/)`). -/
def findPdfDate : List Char → Option (List Char × List Char × List Char)
  | [] => none
  | c :: t =>
    match matchPdfDate (c :: t) with
    | some r => some r
    | none => findPdfDate t

/-- The `ExtractedPdf` record of `types.ts` (`links`/`images` entries are
`{text, href}` / `{alt, src}` pairs). -/
structure ExtractedPdf where
  title : String
  authors : List String
  published : String
  text : String
  sourceGuess : String
  links : List (String × String)
  images : List (String × String)
  contentType : String
  pageCount : Nat
  pdfBuffer : Option (List Nat)
deriving DecidableEq

/-- Embedding of `extractPdfContent` (`pdf.ts` lines 125-204).  `parser`
models `getDocumentProxy` (its `Except.error` is the parser throwing);
`pagesToExtract` is computed by the source but never used — `extractText`
runs on the whole document (see the page-limit claim). -/
def extractPdfContent (parseUrl : String → Option JsUrl)
    (decode : String → Option String) (parser : List Nat → Except String PdfDoc)
    (buffer : List Nat) (url : String) (maxChars : Nat) (maxPages : Option Nat) :
    Except String ExtractedPdf :=
  match parser buffer with
  | .error e => .error e
  | .ok pdf =>
    let meta := pdf.metaInfo
    let totalPages := pdf.numPages
    let _pagesToExtract :=
      match maxPages with
      | some m => if m ≠ 0 then min totalPages m else totalPages
      | none => totalPages
    let fullText :=
      match extractTextMerged pdf with
      | .ok t =>
        match maxPages with
        | some m =>
          if m ≠ 0 ∧ totalPages > m then
            t ++ "\n\n[Note: Only first " ++ toString m ++ " of " ++ toString totalPages ++
              " pages extracted]"
          else t
        | none => t
      | .error _ => ""
    let authors :=
      match meta with
      | some mi =>
        match mi.author with
        | some a => if a = "" then [] else splitAuthorsPdf a
        | none => []
      | none => []
    let published :=
      match meta with
      | some mi =>
        match mi.creationDate with
        | some d =>
          if d = "" then ""
          else
            match findPdfDate d.data with
            | some (y, m, dd) =>
              (⟨y⟩ : String) ++ "-" ++ (⟨m⟩ : String) ++ "-" ++ (⟨dd⟩ : String)
            | none => ""
        | none => ""
      | none => ""
    let title :=
      match meta with
      | some mi =>
        match mi.title with
        | some t => if t = "" then guessTitleFromUrl parseUrl decode url else t
        | none => guessTitleFromUrl parseUrl decode url
      | none => guessTitleFromUrl parseUrl decode url
    .ok {
      title := title
      authors := authors
      published := published
      text := trimText fullText maxChars
      sourceGuess := guessSource parseUrl url
      links := []
      images := []
      contentType := "pdf"
      pageCount := totalPages
      pdfBuffer := some buffer }

/-! ## Prompt builder (`openai.ts`, function `buildPrompt`) -/

/-- JavaScript `String.prototype.replace` with a plain-string pattern:
only the first occurrence is replaced; absent pattern leaves the string
unchanged. -/
def replaceFirstL (s pat rep : List Char) : List Char :=
  match firstMatch pat s with
  | none => s
  | some i => s.take i ++ rep ++ s.drop (i + pat.length)

/-- String wrapper for `replaceFirstL`. -/
def replaceFirst (s pat rep : String) : String := ⟨replaceFirstL s.data pat.data rep.data⟩

/-- JavaScript `Array.prototype.join(sep)` on character lists. -/
def joinWithL (sep : List Char) : List (List Char) → List Char
  | [] => []
  | [p] => p
  | p :: q :: rest => p ++ sep ++ joinWithL sep (q :: rest)

/-- JavaScript `list.join(sep)`. -/
def joinWith (sep : String) (l : List String) : String :=
  ⟨joinWithL sep.data (l.map String.data)⟩

/-- The common `ExtractedContent` fields read by `buildPrompt`. -/
structure PromptMeta where
  title : String
  authors : List String
  published : String
  text : String
  sourceGuess : String
deriving DecidableEq

/-- The `tagsArray` computation of `buildPrompt`: an explicit list is used
as is; a (truthy) string is split on commas, trimmed and filtered;
otherwise the array is empty. -/
def tagsArrayOf (defaultTags : Option (String ⊕ List String)) : List String :=
  match defaultTags with
  | some (.inr l) => l
  | some (.inl s) =>
    if s = "" then []
    else
      ((((splitOnCommaL s.data).map trimL).filter (fun l => !l.isEmpty)).map
        (fun l => (⟨l⟩ : String)))
  | none => []

/-- The (possibly empty) default-tags block appended after the substituted
template. -/
def tagsSuffix (defaultTags : Option (String ⊕ List String)) : String :=
  let tagsArray := tagsArrayOf defaultTags
  if tagsArray.isEmpty then ""
  else
    "\n\nDEFAULT TAGS TO INCLUDE IN YAML (if appropriate):\n" ++
      joinWith "\n" (tagsArray.map (fun t => "- " ++ t))

/-- The six-fold placeholder substitution of `buildPrompt`
(`template.replace("{url}", url).replace("{title}", ...)...`); for a
JavaScript string `x`, `x || ""` is `x`, so the `|| ""` fallbacks on the
string fields are identities. -/
def substitutePlaceholders (url : String) (meta : PromptMeta) (template : String) : String :=
  let articleText :=
    if jsTrim meta.text = "" then "_NO ARTICLE TEXT EXTRACTED_" else jsTrim meta.text
  replaceFirst (replaceFirst (replaceFirst (replaceFirst (replaceFirst (replaceFirst
    template "{url}" url)
    "{title}" meta.title)
    "{authors}" (joinWith ", " meta.authors))
    "{published}" meta.published)
    "{source}" meta.sourceGuess)
    "{article_text}" articleText

/-- Embedding of `buildPrompt` (`openai.ts` lines 6-36). -/
def buildPrompt (url : String) (meta : PromptMeta)
    (defaultTags : Option (String ⊕ List String)) (template : String) : String :=
  let base := substitutePlaceholders url meta template
  let tagsArray := tagsArrayOf defaultTags
  if tagsArray.isEmpty then base
  else
    base ++ "\n\nDEFAULT TAGS TO INCLUDE IN YAML (if appropriate):\n" ++
      joinWith "\n" (tagsArray.map (fun t => "- " ++ t))

/-! ## Frontmatter validator (`note.ts`, function `ensureFrontmatterPresent`)

The Obsidian `parseYaml` function is an external collaborator; only the
shape of its result matters: `null`, something of `typeof "object"`, or a
scalar.  An `Except.error` models `parseYaml` throwing. -/

/-- Shape of a `parseYaml` result. -/
inductive YamlVal
  | nullVal
  | objectLike
  | otherVal
deriving DecidableEq

/-- The validation failures of `ensureFrontmatterPresent`. -/
inductive FmError
  | noHeader
  | noClose
  | invalidYaml (msg : String)
deriving DecidableEq

/-- Index of the last `"` in a character list. -/
def lastQuoteIdx (l : List Char) : Option Nat :=
  match l.reverse.findIdx? (fun c => c = '"') with
  | some j => some (l.length - 1 - j)
  | none => none

/-- Try to match `title:\s*"(.*)"` at the head of the list (`\s*` may span
newlines; the greedy `(.*)` cannot, so the capture runs to the last `"` on
its line).  On success return the capture and the remainder after the
match. -/
def matchTitlePattern (l : List Char) : Option (List Char × List Char) :=
  if startsWithL "title:".data l then
    let after := l.drop 6
    match after.dropWhile jsWs with
    | '"' :: rest2 =>
      let line := rest2.takeWhile (fun c => c ≠ '\n')
      match lastQuoteIdx line with
      | some q => some (line.take q, rest2.drop (q + 1))
      | none => none
    | _ => none
  else none

/-- Fuelled scanner for the global replace
`yamlBlock.replace(/title:\s*"(.*)"/g, match => 'title: "' + p1 with
backslashes turned into slashes + '"')` — repair strategy 2 of
`ensureFrontmatterPresent`.  Any fuel of at least the input length gives
the full replacement. -/
def replaceTitleGo : Nat → List Char → List Char
  | 0, l => l
  | _ + 1, [] => []
  | fuel + 1, c :: t =>
    match matchTitlePattern (c :: t) with
    | some (p1, rest) =>
      "title: \"".data ++ p1.map (fun ch => if ch = '\\' then '/' else ch) ++
        '"' :: replaceTitleGo fuel rest
    | none => c :: replaceTitleGo fuel t

/-- Repair strategy 2: targeted title sanitization. -/
def replaceTitleBackslashes (s : String) : String :=
  ⟨replaceTitleGo (s.data.length + 1) s.data⟩

/-- Embedding of `ensureFrontmatterPresent` (`note.ts` lines 13-71):
require a leading `---` line and a closing `\n---`; parse the header block;
on parse failure try the two backslash-sanitization strategies in order;
otherwise fail with the original parse error. -/
def ensureFrontmatterPresent (parseYaml : String → Except String YamlVal)
    (note : String) : Except FmError String :=
  if ¬ jsStartsWith note "---" then .error .noHeader
  else
    match (firstMatch "\n---".data (note.data.drop 3)).map (· + 3) with
    | none => .error .noClose
    | some second =>
      let failMsg : Option String :=
        match parseYaml (jsTrim (jsSlice note 3 second)) with
        | .ok .objectLike => none
        | .ok _ => some "Frontmatter YAML is not an object."
        | .error m => some m
      match failMsg with
      | none => .ok note
      | some msg =>
        let yamlBlock := jsSlice note 3 second
        let sanitized : String := ⟨yamlBlock.data.map (fun c => if c = '\\' then '/' else c)⟩
        match parseYaml (jsTrim sanitized) with
        | .ok .objectLike =>
          .ok ("---\n" ++ jsTrim sanitized ++ "\n---" ++ jsSliceFrom note (second + 3))
        | _ =>
          let sanitized2 := replaceTitleBackslashes yamlBlock
          match parseYaml (jsTrim sanitized2) with
          | .ok .objectLike =>
            .ok ("---\n" ++ jsTrim sanitized2 ++ "\n---" ++ jsSliceFrom note (second + 3))
          | _ => .error (.invalidYaml msg)

/-! ## URL/CSV entry parser (`csv.ts`)

PapaParse is an external collaborator: `papa` maps the CSV text to its
observable result (rows as header-to-value records, the detected header
fields, and parse errors). -/

/-- ASCII letter class `[a-zA-Z]`. -/
def isAlpha (c : Char) : Bool :=
  (65 ≤ c.toNat && c.toNat ≤ 90) || (97 ≤ c.toNat && c.toNat ≤ 122)

/-- The regex class `[a-zA-Z0-9+.-]` of URL-scheme characters. -/
def isSchemeChar (c : Char) : Bool :=
  isAlpha c || isDigit c || c = '+' || c = '.' || c = '-'

/-- Scan for `[a-zA-Z0-9+.-]*:` (the tail of the scheme test). -/
def hasSchemeGo : List Char → Bool
  | [] => false
  | c :: t => if c = ':' then true else if isSchemeChar c then hasSchemeGo t else false

/-- The regex test `/^[a-zA-Z][a-zA-Z0-9+.-]*:/`. -/
def hasScheme (l : List Char) : Bool :=
  match l with
  | [] => false
  | c :: t => isAlpha c && hasSchemeGo t

/-- Embedding of `normalizeUrl` (`csv.ts` lines 80-85): trim, keep an
explicit scheme, otherwise prefix `https://`. -/
def normalizeUrl (url : String) : String :=
  let trimmed := jsTrim url
  if trimmed = "" then ""
  else if hasScheme trimmed.data then trimmed
  else "https://" ++ trimmed

/-- Embedding of `isValidUrl` (`csv.ts` lines 17-28): the candidate gets an
`https://` prefix unless it already starts with `http`; it is valid when
`new URL` accepts it with an `http:` or `https:` protocol. -/
def isValidUrl (parseUrl : String → Option JsUrl) (str : String) : Bool :=
  if str = "" then false
  else
    let trimmed := jsTrim str
    if trimmed = "" then false
    else
      match parseUrl (if jsStartsWith trimmed "http" then trimmed
        else "https://" ++ trimmed) with
      | none => false
      | some u => u.protocol == "http:" || u.protocol == "https:"

/-- Recognized URL-column header keywords. -/
def URL_COLUMN_PATTERNS : List String := ["url", "link", "href", "source", "uri", "address"]

/-- Recognized label-column header keywords. -/
def LABEL_COLUMN_PATTERNS : List String := ["label", "title", "name", "description", "desc"]

/-- First pattern (in pattern order) with a matching header index. -/
def findPatternIdx (lower : List String) (test : String → String → Bool) :
    List String → Option Nat
  | [] => none
  | p :: rest =>
    match lower.findIdx? (fun h => test h p) with
    | some i => some i
    | none => findPatternIdx lower test rest

/-- Embedding of `detectUrlColumn` (`csv.ts` lines 33-52): exact keyword
match first, then substring match, then the first column. -/
def detectUrlColumn (headers : List String) : Option String :=
  if headers.isEmpty then none
  else
    let lower := headers.map (fun h => jsTrim (jsToLower h))
    match findPatternIdx lower (fun h p => h == p) URL_COLUMN_PATTERNS with
    | some i => headers[i]?
    | none =>
      match findPatternIdx lower (fun h p => jsIncludes h p) URL_COLUMN_PATTERNS with
      | some i => headers[i]?
      | none => headers[0]?

/-- Embedding of `detectLabelColumn` (`csv.ts` lines 57-75): as for the URL
column but with no fallback. -/
def detectLabelColumn (headers : List String) : Option String :=
  if headers.isEmpty then none
  else
    let lower := headers.map (fun h => jsTrim (jsToLower h))
    match findPatternIdx lower (fun h p => h == p) LABEL_COLUMN_PATTERNS with
    | some i => headers[i]?
    | none =>
      match findPatternIdx lower (fun h p => jsIncludes h p) LABEL_COLUMN_PATTERNS with
      | some i => headers[i]?
      | none => none

/-- `CsvUrlEntry` of `types.ts`. -/
structure CsvUrlEntry where
  url : String
  label : Option String
deriving DecidableEq

/-- `ParsedCsv` of `types.ts`. -/
structure ParsedCsv where
  entries : List CsvUrlEntry
  errors : List String
deriving DecidableEq

/-- One PapaParse error record. -/
structure PapaErr where
  row : Option Nat
  message : String
deriving DecidableEq

/-- Observable PapaParse result: data rows, detected header fields
(`meta.fields`), errors. -/
structure PapaResult where
  data : List (List (String × String))
  fields : Option (List String)
  errors : List PapaErr
deriving DecidableEq

/-- A truthy string field of a row: present and nonempty. -/
def rowTruthyLookup (row : List (String × String)) (col : String) : Option String :=
  match row.lookup col with
  | some v => if v = "" then none else some v
  | none => none

/-- The row loop of `parseCsvContent`: skip rows without a truthy URL cell,
record invalid URLs as row errors, skip duplicates via the `seen` set,
attach a trimmed label when the label column holds a truthy value. -/
def csvRowsLoop (parseUrl : String → Option JsUrl) (urlColumn : String)
    (labelColumn : Option String) :
    List (List (String × String)) → Nat → List String → List CsvUrlEntry × List String
  | [], _, _ => ([], [])
  | row :: rest, i, seen =>
    match rowTruthyLookup row urlColumn with
    | none => csvRowsLoop parseUrl urlColumn labelColumn rest (i + 1) seen
    | some rawUrl =>
      let url := normalizeUrl rawUrl
      if ¬ isValidUrl parseUrl url then
        let step := csvRowsLoop parseUrl urlColumn labelColumn rest (i + 1) seen
        (step.1, ("Row " ++ toString (i + 2) ++ ": Invalid URL \"" ++ rawUrl ++ "\"") :: step.2)
      else if url ∈ seen then
        csvRowsLoop parseUrl urlColumn labelColumn rest (i + 1) seen
      else
        let label :=
          match labelColumn with
          | some lc => (rowTruthyLookup row lc).map jsTrim
          | none => none
        let step := csvRowsLoop parseUrl urlColumn labelColumn rest (i + 1) (url :: seen)
        ({ url := url, label := label } :: step.1, step.2)

/-- Embedding of `parseCsvContent` (`csv.ts` lines 90-161). -/
def parseCsvContent (papa : String → PapaResult) (parseUrl : String → Option JsUrl)
    (csvText : String) : ParsedCsv :=
  if csvText = "" ∨ jsTrim csvText = "" then
    { entries := [], errors := ["CSV content is empty"] }
  else if ((papa csvText).fields.getD []).isEmpty then
    { entries := [], errors := ["No headers found in CSV"] }
  else
    match detectUrlColumn ((papa csvText).fields.getD []) with
    | none => { entries := [], errors := ["Could not detect URL column in CSV"] }
    | some urlColumn =>
      { entries :=
          (csvRowsLoop parseUrl urlColumn (detectLabelColumn ((papa csvText).fields.getD []))
            (papa csvText).data 0 []).1
        errors :=
          (papa csvText).errors.map (fun e =>
            "Row " ++ (match e.row with | some r => toString r | none => "?") ++ ": " ++
              e.message) ++
          (csvRowsLoop parseUrl urlColumn (detectLabelColumn ((papa csvText).fields.getD []))
            (papa csvText).data 0 []).2 }

/-- Strip one trailing carriage return (the `\r?` of the line separator). -/
def stripTrailingCR (l : List Char) : List Char :=
  if l.getLast? = some '\r' then l.dropLast else l

/-- JavaScript `split("\n")` on a character list. -/
def splitOnNewlineL : List Char → List (List Char)
  | [] => [[]]
  | c :: t =>
    if c = '\n' then [] :: splitOnNewlineL t
    else
      match splitOnNewlineL t with
      | [] => [[c]]
      | h :: r => (c :: h) :: r

/-- JavaScript `text.split(/\r?\n/)`: split on newlines, where each
separator may carry a preceding carriage return. -/
def splitLinesJs (s : String) : List String :=
  ((splitOnNewlineL s.data).map stripTrailingCR).map (fun l => (⟨l⟩ : String))

/-- The line loop of `parseUrlList`: skip blank and `#`-comment lines,
split each line on its first comma into URL and label parts, record
invalid URLs as line errors, skip duplicates. -/
def urlListLoop (parseUrl : String → Option JsUrl) :
    List String → Nat → List String → List CsvUrlEntry × List String
  | [], _, _ => ([], [])
  | line0 :: rest, i, seen =>
    let line := jsTrim line0
    if line = "" ∨ jsStartsWith line "#" then urlListLoop parseUrl rest (i + 1) seen
    else
      let parts :=
        match firstMatch [','] line.data with
        | some ci => (jsTrim (jsSlice line 0 ci), jsTrim (jsSliceFrom line (ci + 1)))
        | none => (line, "")
      let url := normalizeUrl parts.1
      if ¬ isValidUrl parseUrl url then
        let step := urlListLoop parseUrl rest (i + 1) seen
        (step.1, ("Line " ++ toString (i + 1) ++ ": Invalid URL \"" ++ parts.1 ++ "\"") :: step.2)
      else if url ∈ seen then urlListLoop parseUrl rest (i + 1) seen
      else
        let step := urlListLoop parseUrl rest (i + 1) (url :: seen)
        ({ url := url, label := if parts.2 = "" then none else some parts.2 } :: step.1, step.2)

/-- Embedding of `parseUrlList` (`csv.ts` lines 166-209). -/
def parseUrlList (parseUrl : String → Option JsUrl) (text : String) : ParsedCsv :=
  { entries :=
      (urlListLoop parseUrl ((splitLinesJs text).filter (fun l => !(jsTrim l == ""))) 0 []).1
    errors :=
      (urlListLoop parseUrl ((splitLinesJs text).filter (fun l => !(jsTrim l == ""))) 0 []).2 }

/-- The header keywords `parseUrlInput` looks for in the first line. -/
def headerPatterns : List String :=
  ["url", "link", "href", "source", "uri", "label", "title", "name"]

/-- Embedding of `parseUrlInput` (`csv.ts` lines 214-236): empty input is
an error; a first line with a comma and a known header keyword selects the
PapaParse path, otherwise the bare-list parser runs. -/
def parseUrlInput (papa : String → PapaResult) (parseUrl : String → Option JsUrl)
    (text : String) : ParsedCsv :=
  if jsTrim text = "" then { entries := [], errors := ["Input is empty"] }
  else if jsIncludes (jsToLower ((splitLinesJs (jsTrim text)).headD "")) "," &&
      headerPatterns.any
        (fun p => jsIncludes (jsToLower ((splitLinesJs (jsTrim text)).headD "")) p) then
    parseCsvContent papa parseUrl (jsTrim text)
  else parseUrlList parseUrl (jsTrim text)

/-! ## Retry controller and batch orchestrator (`main.ts`)

The model call is an external collaborator: `call n` is the observable
outcome of the `n`-th invocation attempt (`Except.error` carries the
thrown error's `status`/`code`/`message` as read by the handler).  The
result pairs the overall outcome with the list of backoff sleeps, in
milliseconds, in order. -/

/-- The configured provider. -/
inductive Provider
  | openai
  | lmstudio
deriving DecidableEq

/-- The fields of a thrown model-call error that the retry handler reads. -/
structure ModelErr where
  status : Option Nat
  code : Option String
  msg : String
deriving DecidableEq

/-- What `callModelWithRetries` can throw: the wrapped authentication
error, the wrapped quota error, or the last raw error rethrown after the
loop. -/
inductive ModelThrown
  | auth
  | quota
  | raw (e : ModelErr)
deriving DecidableEq

/-- The classification `status === 429 || (status && status >= 500)`. -/
def retriableErr (e : ModelErr) : Bool :=
  match e.status with
  | some s => s == 429 || decide (500 ≤ s)
  | none => false

/-- The retry loop of `callModelWithRetries` (`main.ts` lines 741-784) with
`remaining = maxRetries - attempt`: invoke the call; rethrow 401 as the
authentication error and `insufficient_quota` as the quota error (OpenAI
provider only); sleep `500 * 2 ^ attempt` and continue while the error is
retriable and attempts remain; otherwise rethrow the last error. -/
def retryGo (provider : Provider) (call : Nat → Except ModelErr String) :
    Nat → Nat → Except ModelThrown String × List Nat
  | attempt, remaining =>
    match call attempt with
    | .ok v => (.ok v, [])
    | .error e =>
      if e.status = some 401 ∧ provider = Provider.openai then (.error .auth, [])
      else if e.code = some "insufficient_quota" ∧ provider = Provider.openai then
        (.error .quota, [])
      else if retriableErr e then
        match remaining with
        | 0 => (.error (.raw e), [])
        | r + 1 =>
          let step := retryGo provider call (attempt + 1) r
          (step.1, (500 * 2 ^ attempt) :: step.2)
      else (.error (.raw e), [])

/-- Embedding of `callModelWithRetries` (`main.ts` lines 728-785): the
while loop over attempts `0..maxRetries`. -/
def callModelWithRetries (provider : Provider) (call : Nat → Except ModelErr String)
    (maxRetries : Nat) : Except ModelThrown String × List Nat :=
  retryGo provider call 0 maxRetries

/-- Outcome of one batch item (`runImportSilent`): a created file, a `null`
return (no code path of `runImportSilent` actually produces it), or a
thrown error with its message. -/
inductive ItemOutcome
  | file
  | nullFile
  | err (msg : String)
deriving DecidableEq

/-- `BatchResult` of `types.ts`; `errors` entries are `{url, message}`. -/
structure BatchResult where
  success : Nat
  failed : Nat
  errors : List (String × String)
deriving DecidableEq

/-- Embedding of the loop of `runBatchImport` (`main.ts` lines 557-587):
entries are processed strictly in order; a success increments `success`, a
`null` return increments `failed` and records `Import returned null`, a
thrown error increments `failed`, records `{url, message}` and — when
`continueOnError` is false — breaks out of the loop.  The second component
lists the attempted entries in order. -/
def runBatchImport (outcome : String → ItemOutcome) (continueOnError : Bool) :
    List String → BatchResult × List String
  | [] => ({ success := 0, failed := 0, errors := [] }, [])
  | u :: rest =>
    match outcome u with
    | .file =>
      let step := runBatchImport outcome continueOnError rest
      ({ step.1 with success := step.1.success + 1 }, u :: step.2)
    | .nullFile =>
      let step := runBatchImport outcome continueOnError rest
      ({ step.1 with
          failed := step.1.failed + 1
          errors := (u, "Import returned null") :: step.1.errors }, u :: step.2)
    | .err m =>
      if continueOnError then
        let step := runBatchImport outcome continueOnError rest
        ({ step.1 with
            failed := step.1.failed + 1
            errors := (u, m) :: step.1.errors }, u :: step.2)
      else ({ success := 0, failed := 1, errors := [(u, m)] }, [u])

/-- The URL parse used by the `detectContentType` witness. -/
def c5parse : String → Option JsUrl := fun s =>
  if s = "https://x.com/doc.pdf" then
    some { protocol := "https:", hostname := "x.com", pathname := "/doc.pdf", searchParams := [] }
  else none

/-- The response used by the `fetchPdfAsArrayBuffer` witness: 100 bytes,
none of them the signature. -/
def c4resp : HttpBufResp := { status := 200, buffer := List.replicate 100 7 }

/-- A document the external parser accepts. -/
def c4doc : PdfDoc :=
  { numPages := 1, pages := ["hello"],
    metaInfo := some { author := none, creationDate := none, title := some "T" },
    textOk := true }

/-- The two-page document of the page-limit evaluation. -/
def c7doc : PdfDoc :=
  { numPages := 2, pages := ["PAGE-ONE.", "PAGE-TWO."],
    metaInfo := some { author := none, creationDate := none, title := some "Doc" },
    textOk := true }

/-- An error that the retry classifier treats as retriable and not fatal
for the given provider. -/
def retriableNonFatal (provider : Provider) (e : ModelErr) : Prop :=
  retriableErr e = true ∧ ¬(e.status = some 401 ∧ provider = Provider.openai) ∧
    ¬(e.code = some "insufficient_quota" ∧ provider = Provider.openai)

/-- The mock call of the witness: status 429 twice, then success. -/
def c1callA : Nat → Except ModelErr String := fun n =>
  if n < 2 then .error { status := some 429, code := none, msg := "rate limited" }
  else .ok "note"

/-- The mock call of the witness: status 401 always. -/
def c1callB : Nat → Except ModelErr String :=
  fun _ => .error { status := some 401, code := none, msg := "unauthorized" }

/-- The per-item outcome of the concrete batch scenario: the second URL
fails, the others succeed. -/
def c2outcome : String → ItemOutcome := fun u =>
  if u = "u2" then .err "boom" else .file

/-- The YAML parser used by the frontmatter witnesses: accepts exactly the
block `title: A` as a mapping. -/
def c3yaml : String → Except String YamlVal := fun s =>
  if s = "title: A" then .ok .objectLike else .error "parse error"

/-- The URL/label split of one bare-list line. -/
def lineParts (line : String) : String × String :=
  match firstMatch [','] line.data with
  | some ci => (jsTrim (jsSlice line 0 ci), jsTrim (jsSliceFrom line (ci + 1)))
  | none => (line, "")

/-- The URL parse of the C8 demonstration: accepts exactly the two
well-formed URLs. -/
def c8parse : String → Option JsUrl := fun s =>
  if s = "https://a.com" ∨ s = "https://b.com" then
    some { protocol := "https:", hostname := "", pathname := "/", searchParams := [] }
  else none

/-- A PapaParse stub (the demonstrations use the bare-list branch, which
never consults it). -/
def c8papa : String → PapaResult := fun _ => { data := [], fields := none, errors := [] }

/-- Characters other than `{` (occurrences of any placeholder must start at
a `{`). -/
def braceFreeB (l : List Char) : Bool := l.all (fun c => !(c = '{'))

/-- The six placeholders of the prompt template, in substitution order. -/
def placeholderList : List String :=
  ["{url}", "{title}", "{authors}", "{published}", "{source}", "{article_text}"]

/-- The value substituted for each placeholder by `buildPrompt`. -/
def phValue (url : String) (meta : PromptMeta) (q : String) : String :=
  if q = "{url}" then url
  else if q = "{title}" then meta.title
  else if q = "{authors}" then joinWith ", " meta.authors
  else if q = "{published}" then meta.published
  else if q = "{source}" then meta.sourceGuess
  else if jsTrim meta.text = "" then "_NO ARTICLE TEXT EXTRACTED_" else jsTrim meta.text

theorem string_eq_of_data {s t : String} (h : s.data = t.data) : s = t := by
  cases s
  cases t
  exact congrArg String.mk h

/-! ## Lemmas about the generic helpers -/

theorem mem_of_mem_dropWhile {p : Char → Bool} {l : List Char} {c : Char}
    (h : c ∈ l.dropWhile p) : c ∈ l :=
  (List.dropWhile_sublist (l := l) (p := p)).subset h

theorem dropWhile_head_not {p : Char → Bool} :
    ∀ {l : List Char} {c : Char}, (l.dropWhile p).head? = some c → p c = false := by
  intro l
  induction l with
  | nil => intro c h; simp [List.dropWhile] at h
  | cons a t ih =>
    intro c h
    by_cases hp : p a
    · rw [List.dropWhile_cons_of_pos hp] at h
      exact ih h
    · rw [List.dropWhile_cons_of_neg hp] at h
      simp only [List.head?_cons, Option.some.injEq] at h
      subst h
      simpa using hp

theorem dropWhile_id_of_not {p : Char → Bool} {l : List Char}
    (h : ∀ c ∈ l, p c = false) : l.dropWhile p = l := by
  cases l with
  | nil => rfl
  | cons a t =>
    rw [List.dropWhile_cons_of_neg]
    simp [h a (by simp)]

theorem map_id_of {α : Type} {f : α → α} {l : List α} (h : ∀ a ∈ l, f a = a) :
    l.map f = l := by
  induction l with
  | nil => rfl
  | cons a t ih =>
    simp only [List.map_cons, h a (by simp), List.cons.injEq, true_and]
    exact ih fun c hc => h c (List.mem_cons_of_mem a hc)

theorem trimL_id {l : List Char} (h : ∀ c ∈ l, jsWs c = false) : trimL l = l := by
  unfold trimL
  rw [dropWhile_id_of_not h, dropWhile_id_of_not (by simpa using fun c hc => h c hc),
    List.reverse_reverse]

/-! ## Lemmas for the tag normalizer -/

theorem slug_lower_id {c : Char} (h : isSlugChar c = true) : jsToLowerChar c = c := by
  simp only [isSlugChar, Bool.or_eq_true, Bool.and_eq_true, decide_eq_true_eq] at h
  simp only [jsToLowerChar, ite_eq_right_iff]
  intro hc
  omega

theorem slug_not_wsU {c : Char} (h : isSlugChar c = true) : isWsU c = false := by
  simp only [isSlugChar, Bool.or_eq_true, Bool.and_eq_true, decide_eq_true_eq] at h
  simp only [isWsU, jsWs, Bool.or_eq_false_iff, decide_eq_false_iff_not]
  omega

theorem slug_ne_comma {c : Char} (h : isSlugChar c = true) : c ≠ ',' := by
  intro he
  subst he
  simp [isSlugChar] at h

theorem slug_ne_hash {c : Char} (h : isSlugChar c = true) : c ≠ '#' := by
  intro he
  subst he
  simp [isSlugChar] at h

theorem slug_badToHyphen {c : Char} (h : isSlugChar c = true) : badToHyphen c = c := by
  simp [badToHyphen, h]

theorem badToHyphen_slug (c : Char) : isSlugChar (badToHyphen c) = true := by
  unfold badToHyphen
  cases hC : isSlugChar c
  · simp only [Bool.false_eq_true, if_false]
    decide
  · simpa using hC

theorem slug_not_hyphen_iff {c : Char} : isHyphen c = false ↔ c ≠ '-' := by
  simp [isHyphen]

theorem replaceRuns_id_of_not {p : Char → Bool} {r : Char} {l : List Char}
    (h : ∀ c ∈ l, p c = false) : replaceRuns p r l = l := by
  unfold replaceRuns
  induction l with
  | nil => rfl
  | cons a t ih =>
    have ha : p a = false := h a (by simp)
    simp only [replaceRunsGo, ha, Bool.false_eq_true, if_false, List.cons.injEq, true_and]
    exact ih fun c hc => h c (List.mem_cons_of_mem a hc)

theorem mem_replaceRunsGo {p : Char → Bool} {r : Char} :
    ∀ {l : List Char} {b : Bool} {c : Char}, c ∈ replaceRunsGo p r b l → c ∈ l ∨ c = r := by
  intro l
  induction l with
  | nil => intro b c h; simp [replaceRunsGo] at h
  | cons a t ih =>
    intro b c h
    simp only [replaceRunsGo] at h
    by_cases hp : p a
    · rw [if_pos hp] at h
      cases b with
      | true =>
        rw [if_pos rfl] at h
        rcases ih h with h' | h'
        · exact Or.inl (List.mem_cons_of_mem a h')
        · exact Or.inr h'
      | false =>
        rw [if_neg (by simp)] at h
        rcases List.mem_cons.mp h with h | h
        · exact Or.inr h
        · rcases ih h with h' | h'
          · exact Or.inl (List.mem_cons_of_mem a h')
          · exact Or.inr h'
    · rw [if_neg hp] at h
      rcases List.mem_cons.mp h with h | h
      · exact Or.inl (by simp [h])
      · rcases ih h with h' | h'
        · exact Or.inl (List.mem_cons_of_mem a h')
        · exact Or.inr h'

theorem noDouble_cons {a : Char} {rest : List Char}
    (hpair : ∀ b, rest.head? = some b → (isHyphen a && isHyphen b) = false)
    (h : noDouble rest = true) : noDouble (a :: rest) = true := by
  cases rest with
  | nil => rfl
  | cons b t =>
    simp only [noDouble, Bool.and_eq_true, Bool.not_eq_true']
    exact ⟨hpair b rfl, h⟩

theorem noDouble_tail {a : Char} {t : List Char} (h : noDouble (a :: t) = true) :
    noDouble t = true := by
  cases t with
  | nil => rfl
  | cons b t' =>
    simp only [noDouble, Bool.and_eq_true] at h
    exact h.2

theorem replaceRunsGo_true_head {p : Char → Bool} {r : Char} :
    ∀ {l : List Char} {c : Char}, (replaceRunsGo p r true l).head? = some c → p c = false := by
  intro l
  induction l with
  | nil => intro c h; simp [replaceRunsGo] at h
  | cons a t ih =>
    intro c h
    simp only [replaceRunsGo] at h
    by_cases hp : p a
    · rw [if_pos hp] at h
      rw [if_pos (by trivial)] at h
      exact ih h
    · rw [if_neg hp] at h
      simp only [List.head?_cons, Option.some.injEq] at h
      subst h
      simpa using hp

theorem noDouble_replaceRunsGo :
    ∀ (l : List Char) (b : Bool), noDouble (replaceRunsGo isHyphen '-' b l) = true := by
  intro l
  induction l with
  | nil => intro b; rfl
  | cons a t ih =>
    intro b
    simp only [replaceRunsGo]
    by_cases hp : isHyphen a
    · rw [if_pos hp]
      cases b with
      | true => exact if_pos rfl ▸ ih true
      | false =>
        rw [if_neg (by simp)]
        refine noDouble_cons (fun b' hb' => ?_) (ih true)
        rw [replaceRunsGo_true_head hb']
        simp
    · rw [if_neg hp]
      refine noDouble_cons (fun b' hb' => ?_) (ih false)
      rw [Bool.not_eq_true] at hp
      rw [hp]
      simp

theorem replaceRunsGo_true_eq_false {p : Char → Bool} {r : Char} {l : List Char}
    (h : ∀ c, l.head? = some c → p c = false) :
    replaceRunsGo p r true l = replaceRunsGo p r false l := by
  cases l with
  | nil => rfl
  | cons a t =>
    have ha := h a rfl
    simp [replaceRunsGo, ha]

theorem replaceRunsGo_noDouble_id :
    ∀ {l : List Char}, noDouble l = true → replaceRunsGo isHyphen '-' false l = l := by
  intro l
  induction l with
  | nil => intro _; rfl
  | cons a t ih =>
    intro h
    simp only [replaceRunsGo]
    by_cases hp : isHyphen a
    · rw [if_pos hp, if_neg (by simp)]
      have ha : a = '-' := by simpa [isHyphen] using hp
      have hhead : ∀ c, t.head? = some c → isHyphen c = false := by
        intro c hc
        cases t with
        | nil => simp at hc
        | cons b t' =>
          simp only [List.head?_cons, Option.some.injEq] at hc
          subst hc
          simp only [noDouble, Bool.and_eq_true, Bool.not_eq_true'] at h
          have := h.1
          rw [hp] at this
          simpa using this
      rw [replaceRunsGo_true_eq_false hhead, ih (noDouble_tail h), ha]
    · rw [if_neg hp]
      rw [ih (noDouble_tail h)]

theorem noDouble_dropPrefix : ∀ {x m : List Char}, noDouble (x ++ m) = true → noDouble m = true := by
  intro x
  induction x with
  | nil => intro m h; exact h
  | cons a t ih => intro m h; exact ih (noDouble_tail h)

theorem noDouble_dropSuffix : ∀ {m y : List Char}, noDouble (m ++ y) = true → noDouble m = true := by
  intro m
  induction m with
  | nil => intro y _; rfl
  | cons a t ih =>
    intro y h
    cases t with
    | nil => rfl
    | cons b t2 =>
      simp only [List.cons_append, noDouble, Bool.and_eq_true] at h ⊢
      exact ⟨h.1, ih (by simpa using h.2)⟩

theorem noDouble_dropWhile {p : Char → Bool} :
    ∀ {l : List Char}, noDouble l = true → noDouble (l.dropWhile p) = true := by
  intro l
  induction l with
  | nil => intro _; rfl
  | cons a t ih =>
    intro h
    by_cases hp : p a
    · rw [List.dropWhile_cons_of_pos hp]
      exact ih (noDouble_tail h)
    · rwa [List.dropWhile_cons_of_neg hp]

theorem mem_trimHyphens {l : List Char} {c : Char} (h : c ∈ trimHyphens l) : c ∈ l := by
  unfold trimHyphens at h
  rw [List.mem_reverse] at h
  have h1 := mem_of_mem_dropWhile h
  rw [List.mem_reverse] at h1
  exact mem_of_mem_dropWhile h1

theorem trimHyphens_decomp (l : List Char) :
    l.dropWhile isHyphen =
      (trimHyphens l) ++ ((l.dropWhile isHyphen).reverse.takeWhile isHyphen).reverse := by
  unfold trimHyphens
  have h := List.takeWhile_append_dropWhile
    (p := isHyphen) (l := (l.dropWhile isHyphen).reverse)
  calc l.dropWhile isHyphen
      = (l.dropWhile isHyphen).reverse.reverse := (List.reverse_reverse _).symm
    _ = ((l.dropWhile isHyphen).reverse.takeWhile isHyphen ++
          (l.dropWhile isHyphen).reverse.dropWhile isHyphen).reverse := by rw [h]
    _ = _ := by rw [List.reverse_append]

theorem noDouble_trimHyphens {l : List Char} (h : noDouble l = true) :
    noDouble (trimHyphens l) = true := by
  have h1 : noDouble (l.dropWhile isHyphen) = true := noDouble_dropWhile h
  rw [trimHyphens_decomp l] at h1
  exact noDouble_dropSuffix h1

theorem trimHyphens_head {l : List Char} {c : Char}
    (h : (trimHyphens l).head? = some c) : isHyphen c = false := by
  have hd := trimHyphens_decomp l
  cases he : trimHyphens l with
  | nil => rw [he] at h; simp at h
  | cons d t =>
    rw [he] at h
    simp only [List.head?_cons, Option.some.injEq] at h
    rw [he] at hd
    have hh : (l.dropWhile isHyphen).head? = some c := by
      rw [hd, ← h]
      simp
    exact dropWhile_head_not hh

theorem trimHyphens_last {l : List Char} {c : Char}
    (h : (trimHyphens l).getLast? = some c) : isHyphen c = false := by
  unfold trimHyphens at h
  rw [← List.head?_reverse, List.reverse_reverse] at h
  exact dropWhile_head_not h

theorem canon_parts {l : List Char} (h : canonB l = true) :
    l ≠ [] ∧ (∀ c ∈ l, isSlugChar c = true) ∧ noDouble l = true ∧
      isHyphen (l.headD 'x') = false ∧ isHyphen (l.getLastD 'x') = false := by
  simp only [canonB, Bool.and_eq_true, Bool.not_eq_true', List.all_eq_true] at h
  obtain ⟨⟨⟨⟨h1, h2⟩, h3⟩, h4⟩, h5⟩ := h
  refine ⟨?_, h2, h3, h4, h5⟩
  intro he
  subst he
  simp at h1

theorem canon_build {l : List Char} (h1 : l ≠ []) (h2 : ∀ c ∈ l, isSlugChar c = true)
    (h3 : noDouble l = true) (h4 : isHyphen (l.headD 'x') = false)
    (h5 : isHyphen (l.getLastD 'x') = false) : canonB l = true := by
  simp only [canonB, Bool.and_eq_true, Bool.not_eq_true', List.all_eq_true]
  refine ⟨⟨⟨⟨?_, h2⟩, h3⟩, h4⟩, h5⟩
  cases l with
  | nil => exact absurd rfl h1
  | cons a t => simp [List.isEmpty]

theorem mem_replaceRuns {p : Char → Bool} {r : Char} {l : List Char} {c : Char}
    (h : c ∈ replaceRuns p r l) : c ∈ l ∨ c = r :=
  mem_replaceRunsGo h

theorem noDouble_replaceRuns (l : List Char) :
    noDouble (replaceRuns isHyphen '-' l) = true :=
  noDouble_replaceRunsGo l false

theorem replaceRuns_noDouble_id {l : List Char} (h : noDouble l = true) :
    replaceRuns isHyphen '-' l = l :=
  replaceRunsGo_noDouble_id h

theorem getLastD_of_getLast? {l : List Char} {c : Char} (h : l.getLast? = some c) :
    l.getLastD 'x' = c := by
  rw [List.getLastD_eq_getLast? 'x' l, h]
  rfl

theorem slugify_canon (l : List Char) :
    slugifyL l = [] ∨ canonB (slugifyL l) = true := by
  set m2 := (replaceRuns isWsU '-' ((dropLeadingHash l).map jsToLowerChar)).map badToHyphen
    with hm2
  set m3 := replaceRuns isHyphen '-' m2 with hm3
  have hslug3 : ∀ c ∈ m3, isSlugChar c = true := by
    intro c hc
    rw [hm3] at hc
    rcases mem_replaceRuns hc with h | h
    · rw [hm2] at h
      rcases List.mem_map.mp h with ⟨d, _, rfl⟩
      exact badToHyphen_slug d
    · subst h
      decide
  have hND : noDouble m3 = true := hm3 ▸ noDouble_replaceRuns m2
  have hres : slugifyL l = trimHyphens m3 := rfl
  cases he : trimHyphens m3 with
  | nil =>
    left
    rw [hres, he]
  | cons d t =>
    right
    rw [hres]
    apply canon_build
    · rw [he]
      simp
    · intro c hc
      exact hslug3 c (mem_trimHyphens hc)
    · exact noDouble_trimHyphens hND
    · have hh : (trimHyphens m3).head? = some d := by rw [he]; simp
      have := trimHyphens_head hh
      rw [he]
      simpa using this
    · have hne : trimHyphens m3 ≠ [] := by rw [he]; simp
      obtain ⟨e, hel⟩ : ∃ e, (trimHyphens m3).getLast? = some e := by
        cases hgl : (trimHyphens m3).getLast? with
        | none =>
          rw [List.getLast?_eq_none_iff] at hgl
          exact absurd hgl hne
        | some e => exact ⟨e, rfl⟩
      have hlast := trimHyphens_last hel
      rw [getLastD_of_getLast? hel]
      exact hlast

theorem canon_fix {l : List Char} (h : canonB l = true) : slugifyL l = l := by
  obtain ⟨hne, hslug, hnd, hhead, hlast⟩ := canon_parts h
  have e1 : dropLeadingHash l = l := by
    cases l with
    | nil => rfl
    | cons c t =>
      have : c ≠ '#' := slug_ne_hash (hslug c (by simp))
      simp [dropLeadingHash, this]
  have e2 : l.map jsToLowerChar = l := map_id_of fun c hc => slug_lower_id (hslug c hc)
  have e3 : replaceRuns isWsU '-' l = l :=
    replaceRuns_id_of_not fun c hc => slug_not_wsU (hslug c hc)
  have e4 : l.map badToHyphen = l := map_id_of fun c hc => slug_badToHyphen (hslug c hc)
  have e5 : replaceRuns isHyphen '-' l = l := replaceRuns_noDouble_id hnd
  have e6 : trimHyphens l = l := by
    have hd1 : l.dropWhile isHyphen = l := by
      cases l with
      | nil => rfl
      | cons c t =>
        rw [List.dropWhile_cons_of_neg]
        simp only [Bool.not_eq_true]
        simpa using hhead
    have hd2 : l.reverse.dropWhile isHyphen = l.reverse := by
      cases hrev : l.reverse with
      | nil => simp
      | cons c t =>
        rw [List.dropWhile_cons_of_neg]
        have h1 : l.getLast? = some c := by
          rw [← List.head?_reverse, hrev]
          simp
        simp only [Bool.not_eq_true]
        rw [← getLastD_of_getLast? h1]
        exact hlast
    unfold trimHyphens
    rw [hd1, hd2, List.reverse_reverse]
  unfold slugifyL
  rw [e1, e2, e3, e4, e5, e6]

theorem splitOnCommaL_ne_nil : ∀ l : List Char, splitOnCommaL l ≠ [] := by
  intro l
  cases l with
  | nil => simp [splitOnCommaL]
  | cons c t =>
    by_cases hc : c = ','
    · simp [splitOnCommaL, hc]
    · simp only [splitOnCommaL, hc, if_false]
      cases h : splitOnCommaL t with
      | nil => simp
      | cons a r => simp

theorem splitOnCommaL_no_comma : ∀ {l : List Char}, (∀ c ∈ l, c ≠ ',') →
    splitOnCommaL l = [l] := by
  intro l
  induction l with
  | nil => intro _; rfl
  | cons c t ih =>
    intro h
    have hc : ¬(c = ',') := h c (by simp)
    have ht := ih fun d hd => h d (List.mem_cons_of_mem c hd)
    simp [splitOnCommaL, hc, ht]

theorem splitOnCommaL_append : ∀ {p r : List Char}, (∀ c ∈ p, c ≠ ',') →
    splitOnCommaL (p ++ ',' :: r) = p :: splitOnCommaL r := by
  intro p
  induction p with
  | nil => intro r _; simp [splitOnCommaL]
  | cons c p' ih =>
    intro r h
    have hc : ¬(c = ',') := h c (by simp)
    have hp' := ih (r := r) fun d hd => h d (List.mem_cons_of_mem c hd)
    show splitOnCommaL (c :: (p' ++ ',' :: r)) = (c :: p') :: splitOnCommaL r
    simp only [splitOnCommaL, hc, if_false, hp']

theorem split_join : ∀ {ps : List (List Char)}, ps ≠ [] →
    (∀ p ∈ ps, ∀ c ∈ p, c ≠ ',') → splitOnCommaL (joinCommaL ps) = ps := by
  intro ps
  induction ps with
  | nil => intro h _; exact absurd rfl h
  | cons p rest ih =>
    intro _ h
    cases rest with
    | nil =>
      show splitOnCommaL (joinCommaL [p]) = [p]
      exact splitOnCommaL_no_comma (h p (by simp))
    | cons q rest' =>
      rw [show joinCommaL (p :: q :: rest') = p ++ ',' :: joinCommaL (q :: rest') from rfl]
      rw [splitOnCommaL_append (h p (by simp)),
        ih (by simp) fun x hx c hc => h x (List.mem_cons_of_mem p hx) c hc]

theorem mem_dedupFirst : ∀ {l : List (List Char)} {seen x}, x ∈ dedupFirst seen l → x ∈ l := by
  intro l
  induction l with
  | nil => intro seen x h; simp [dedupFirst] at h
  | cons y t ih =>
    intro seen x h
    simp only [dedupFirst] at h
    by_cases hy : y ∈ seen
    · rw [if_pos hy] at h
      exact List.mem_cons_of_mem y (ih h)
    · rw [if_neg hy] at h
      rcases List.mem_cons.mp h with h | h
      · simp [h]
      · exact List.mem_cons_of_mem y (ih h)

theorem dedupFirst_nodup : ∀ (l : List (List Char)) (seen),
    (dedupFirst seen l).Nodup ∧ ∀ x ∈ dedupFirst seen l, x ∉ seen := by
  intro l
  induction l with
  | nil => intro seen; simp [dedupFirst]
  | cons y t ih =>
    intro seen
    simp only [dedupFirst]
    by_cases hy : y ∈ seen
    · rw [if_pos hy]
      exact ih seen
    · rw [if_neg hy]
      obtain ⟨ihn, ihs⟩ := ih (y :: seen)
      refine ⟨List.nodup_cons.mpr ⟨fun hmem => ?_, ihn⟩, ?_⟩
      · exact (ihs y hmem) (by simp)
      · intro x hx
        rcases List.mem_cons.mp hx with h | h
        · subst h
          exact hy
        · intro hxs
          exact (ihs x h) (List.mem_cons_of_mem y hxs)

theorem dedupFirst_id : ∀ {l : List (List Char)} {seen}, l.Nodup → (∀ x ∈ l, x ∉ seen) →
    dedupFirst seen l = l := by
  intro l
  induction l with
  | nil => intro seen _ _; rfl
  | cons y t ih =>
    intro seen hn hs
    simp only [dedupFirst]
    rw [if_neg (hs y (by simp))]
    congr 1
    apply ih (List.nodup_cons.mp hn).2
    intro x hx
    intro hmem
    rcases List.mem_cons.mp hmem with h | h
    · subst h
      exact (List.nodup_cons.mp hn).1 hx
    · exact hs x (List.mem_cons_of_mem y hx) h

theorem slug_not_ws {c : Char} (h : isSlugChar c = true) : jsWs c = false := by
  have := slug_not_wsU h
  simp only [isWsU, Bool.or_eq_false_iff] at this
  exact this.1

theorem normalizeTags_canon (x : String) : ∀ s ∈ normalizeTags x, canonB s.data = true := by
  intro s hs
  unfold normalizeTags at hs
  by_cases hx : x = ""
  · rw [if_pos hx] at hs
    simp at hs
  · rw [if_neg hx] at hs
    rcases List.mem_map.mp hs with ⟨l, hl, rfl⟩
    have hl' := mem_dedupFirst hl
    unfold slugsOfL at hl'
    obtain ⟨hmem, hne⟩ := List.mem_filter.mp hl'
    rcases List.mem_map.mp hmem with ⟨y, _, rfl⟩
    rcases slugify_canon y with h | h
    · rw [h] at hne
      simp at hne
    · exact h

theorem normalizeTags_nodup (x : String) : ((normalizeTags x).map String.data).Nodup := by
  unfold normalizeTags
  by_cases hx : x = ""
  · rw [if_pos hx]
    simp
  · rw [if_neg hx]
    rw [List.map_map]
    have he : (String.data ∘ fun l => (⟨l⟩ : String)) = id := rfl
    rw [he, List.map_id]
    exact (dedupFirst_nodup _ []).1

theorem normalizeTags_join_canon (ss : List String) (hne : ss ≠ [])
    (hc : ∀ s ∈ ss, canonB s.data = true) (hn : (ss.map String.data).Nodup) :
    normalizeTags (joinComma ss) = ss := by
  set ys := ss.map String.data with hys
  have hysne : ys ≠ [] := by rw [hys]; simpa using hne
  have hcy : ∀ y ∈ ys, canonB y = true := by
    intro y hy
    rw [hys] at hy
    rcases List.mem_map.mp hy with ⟨s, hs, rfl⟩
    exact hc s hs
  have hjoin : (joinComma ss).data = joinCommaL ys := rfl
  have hjne : joinCommaL ys ≠ [] := by
    cases hy0 : ys with
    | nil => exact absurd hy0 hysne
    | cons y0 rest =>
      cases rest with
      | nil =>
        show y0 ≠ []
        exact (canon_parts (hcy y0 (by rw [hy0]; simp))).1
      | cons q r' =>
        show y0 ++ ',' :: joinCommaL (q :: r') ≠ []
        simp
  have hsne : joinComma ss ≠ "" := by
    intro h
    have hd := congrArg String.data h
    rw [hjoin] at hd
    exact hjne hd
  unfold normalizeTags
  rw [if_neg hsne]
  unfold slugsOfL
  have hsplit : splitOnCommaL (joinComma ss).data = ys := by
    rw [hjoin]
    exact split_join hysne fun p hp c hcc =>
      slug_ne_comma ((canon_parts (hcy p hp)).2.1 c hcc)
  rw [hsplit]
  rw [map_id_of (f := trimL) fun y hy =>
    trimL_id fun c hcc => slug_not_ws ((canon_parts (hcy y hy)).2.1 c hcc)]
  have hfilt : ∀ y ∈ ys, (!y.isEmpty) = true := by
    intro y hy
    have := (canon_parts (hcy y hy)).1
    cases y with
    | nil => exact absurd rfl this
    | cons a t => simp
  rw [List.filter_eq_self.mpr hfilt]
  rw [map_id_of fun y hy => canon_fix (hcy y hy)]
  rw [List.filter_eq_self.mpr hfilt]
  rw [dedupFirst_id (hys ▸ hn) (fun x _ hmem => by simp at hmem)]
  rw [hys, List.map_map]
  exact map_id_of fun s _ => by cases s; rfl

/-- C9: `normalizeTags` is idempotent — normalizing the comma-join of its own
output returns the same list — and on the concrete input
`"#News, Breaking_News, breaking-news"` it returns exactly
`["news", "breaking-news"]` (de-duplicated, first-seen order preserved). -/
theorem normalizeTags_idem (x : String) :
    normalizeTags (joinComma (normalizeTags x)) = normalizeTags x ∧
    normalizeTags "#News, Breaking_News, breaking-news" = ["news", "breaking-news"] := by
  refine ⟨?_, by decide⟩
  by_cases hx0 : normalizeTags x = []
  · rw [hx0]
    decide
  · exact normalizeTags_join_canon _ hx0 (normalizeTags_canon x) (normalizeTags_nodup x)

/-! ## Claim theorems -/

/-- C6: for every input string and every `maxChars`, `trimText` returns the
input unchanged when its length is at most `maxChars`; otherwise it returns
exactly the first `maxChars` characters with the truncation marker
`"\n\n[truncated]"` appended exactly once; in all cases the result length
never exceeds `maxChars` plus the marker length. -/
theorem trimText_spec (s : String) (maxChars : Nat) :
    (s.length ≤ maxChars → trimText s maxChars = s) ∧
    (maxChars < s.length →
      trimText s maxChars = (⟨s.data.take maxChars⟩ : String) ++ truncationMarker) ∧
    (trimText s maxChars).length ≤ maxChars + truncationMarker.length := by
  refine ⟨fun h => ?_, fun h => ?_, ?_⟩
  · simp only [trimText]
    rw [if_pos h]
  · simp only [trimText]
    rw [if_neg (by omega)]
  · by_cases h : s.length ≤ maxChars
    · simp only [trimText]
      rw [if_pos h]
      exact le_trans h (Nat.le_add_right _ _)
    · simp only [trimText]
      rw [if_neg h]
      rw [String.length_append]
      have h1 : (⟨s.data.take maxChars⟩ : String).length = (s.data.take maxChars).length := rfl
      rw [h1, List.length_take]
      omega

/-- Witness for `trimText_spec`: a short string is returned unchanged, a
long one is cut at `maxChars` and marked. -/
theorem trimText_spec_witness :
    trimText "ab" 3 = "ab" ∧
    trimText "abcdef" 3 = (⟨"abcdef".data.take 3⟩ : String) ++ truncationMarker :=
  ⟨(trimText_spec "ab" 3).1 (by decide), (trimText_spec "abcdef" 3).2.1 (by decide)⟩

/-- C5: for every URL whose parsed pathname ends in `.pdf`
(case-insensitively) or whose `format` query parameter equals `pdf`
(case-insensitively), `detectContentType` returns
`{isPdf := true, contentType := "application/pdf"}` without consulting the
HEAD probe: the result holds for every probe outcome `head` and the
probe-consulted flag is `false`. -/
theorem detectContentType_pdfUrl (parseUrl : String → Option JsUrl)
    (head : Except Unit HeadResp) (url : String) (u : JsUrl)
    (hu : parseUrl url = some u)
    (hpdf : jsEndsWith (jsToLower u.pathname) ".pdf" = true ∨
      ∃ f, u.searchParams.lookup "format" = some f ∧ jsToLower f = "pdf") :
    detectContentType parseUrl head url =
      ({ isPdf := true, contentType := "application/pdf" }, false) := by
  have hb : isPdfUrl parseUrl url = true := by
    unfold isPdfUrl
    rw [hu]
    show (if jsEndsWith (jsToLower u.pathname) ".pdf" = true then true
      else
        match u.searchParams.lookup "format" with
        | some f => jsToLower f == "pdf"
        | none => false) = true
    rcases hpdf with h | ⟨f, hf, hfp⟩
    · rw [if_pos h]
    · by_cases he : jsEndsWith (jsToLower u.pathname) ".pdf" = true
      · rw [if_pos he]
      · rw [if_neg he, hf]
        simp [hfp]
  unfold detectContentType
  rw [if_pos hb]

/-- Witness for `detectContentType_pdfUrl`:
`detect("https://x.com/doc.pdf")` is PDF with a failing probe (no network
needed). -/
theorem detectContentType_pdfUrl_witness :
    detectContentType c5parse (.error ()) "https://x.com/doc.pdf" =
      ({ isPdf := true, contentType := "application/pdf" }, false) :=
  detectContentType_pdfUrl c5parse (.error ()) "https://x.com/doc.pdf"
    { protocol := "https:", hostname := "x.com", pathname := "/doc.pdf", searchParams := [] }
    (by decide) (Or.inl (by decide))

/-- C4 (amended): on the URL-fetching path, every successful-status
response whose buffer does not begin with the `%PDF-` signature fails PDF
extraction; when the buffer holds at least 100 bytes the failure is the
`Invalid PDF file` signature error (shorter buffers abort with the
`RangeError` thrown while building the header or preview byte views).
The direct-buffer path performs no signature check at all (see the
counterexample theorem). -/
theorem fetchPdf_signature_gate (resp : HttpBufResp) (hst : resp.status < 400)
    (hsig : resp.buffer.take 5 ≠ pdfSignature) :
    (∃ e, fetchPdfAsArrayBuffer resp = .error e) ∧
    (100 ≤ resp.buffer.length →
      fetchPdfAsArrayBuffer resp = .error PdfFetchErr.invalidPdf) := by
  unfold fetchPdfAsArrayBuffer
  rw [if_neg (by omega)]
  constructor
  · by_cases h5 : resp.buffer.length < 5
    · rw [if_pos h5]
      exact ⟨_, rfl⟩
    · rw [if_neg h5, if_pos hsig]
      by_cases h100 : resp.buffer.length < 100
      · rw [if_pos h100]
        exact ⟨_, rfl⟩
      · rw [if_neg h100]
        exact ⟨_, rfl⟩
  · intro h100
    rw [if_neg (show ¬ resp.buffer.length < 5 by omega), if_pos hsig,
      if_neg (show ¬ resp.buffer.length < 100 by omega)]

/-- Witness for `fetchPdf_signature_gate`: a 100-byte garbage buffer fails
with the signature error. -/
theorem fetchPdf_signature_gate_witness :
    fetchPdfAsArrayBuffer c4resp = .error PdfFetchErr.invalidPdf :=
  (fetchPdf_signature_gate c4resp (by decide) (by decide)).2 (by decide)

/-- Counterexample to C4 as stated: `extractPdfContent` never checks the
`%PDF-` signature — the buffer goes straight to the external parser.  With
a parser that accepts the buffer (as pdf.js can: it looks for the
signature anywhere in the first kilobyte), a buffer that does not begin
with `%PDF-` extracts successfully instead of failing with
`InvalidPdfError`. -/
theorem extractPdfContent_no_signature_check :
    [0, 0, 0, 0, 0].take 5 ≠ pdfSignature ∧
    (extractPdfContent (fun _ => none) (fun s => some s) (fun _ => .ok c4doc)
        [0, 0, 0, 0, 0] "https://x.com/a.pdf" 10000 none).isOk = true := by
  exact ⟨by decide, by decide⟩

/-- C7 evaluated at the failing input: with a 2-page document and
`maxPages = 1`, the extracted text is the merged text of BOTH pages —
`pagesToExtract` is computed but never used, `extractText` runs on the
whole document — followed by a note claiming only the first 1 of 2 pages
was extracted. -/
theorem extractPdfContent_pageLimit_eval :
    (extractPdfContent (fun _ => none) (fun s => some s) (fun _ => .ok c7doc) pdfSignature
        "https://x.com/a.pdf" 10000 (some 1)).map ExtractedPdf.text =
      .ok "PAGE-ONE.PAGE-TWO.\n\n[Note: Only first 1 of 2 pages extracted]" ∧
    jsIncludes "PAGE-ONE.PAGE-TWO.\n\n[Note: Only first 1 of 2 pages extracted]"
      "PAGE-TWO." = true := by
  exact ⟨rfl, by decide⟩

theorem retryGo_ok (provider : Provider) (call : Nat → Except ModelErr String)
    (attempt remaining : Nat) {v : String} (h : call attempt = .ok v) :
    retryGo provider call attempt remaining = (.ok v, []) := by
  unfold retryGo
  rw [h]

theorem retryGo_fatal_auth (call : Nat → Except ModelErr String)
    (attempt remaining : Nat) {e : ModelErr} (h : call attempt = .error e)
    (h401 : e.status = some 401) :
    retryGo Provider.openai call attempt remaining = (.error .auth, []) := by
  unfold retryGo
  simp only [h]
  rw [if_pos ⟨h401, trivial⟩]

theorem retryGo_fatal_quota (call : Nat → Except ModelErr String)
    (attempt remaining : Nat) {e : ModelErr} (h : call attempt = .error e)
    (hq : e.code = some "insufficient_quota") (h401 : e.status ≠ some 401) :
    retryGo Provider.openai call attempt remaining = (.error .quota, []) := by
  unfold retryGo
  simp only [h]
  rw [if_neg (fun hc => h401 hc.1), if_pos ⟨hq, trivial⟩]

theorem retryGo_nonretriable (provider : Provider) (call : Nat → Except ModelErr String)
    (attempt remaining : Nat) {e : ModelErr} (h : call attempt = .error e)
    (hre : retriableErr e = false)
    (hnf1 : ¬(e.status = some 401 ∧ provider = Provider.openai))
    (hnf2 : ¬(e.code = some "insufficient_quota" ∧ provider = Provider.openai)) :
    retryGo provider call attempt remaining = (.error (.raw e), []) := by
  unfold retryGo
  simp only [h]
  rw [if_neg hnf1, if_neg hnf2, if_neg (by simp [hre])]

theorem retryGo_retriable_step (provider : Provider) (call : Nat → Except ModelErr String)
    (attempt r : Nat) {e : ModelErr} (h : call attempt = .error e)
    (hrnf : retriableNonFatal provider e) :
    retryGo provider call attempt (r + 1) =
      ((retryGo provider call (attempt + 1) r).1,
        500 * 2 ^ attempt :: (retryGo provider call (attempt + 1) r).2) := by
  conv_lhs => unfold retryGo
  simp only [h]
  rw [if_neg hrnf.2.1, if_neg hrnf.2.2, if_pos hrnf.1]

theorem retryGo_retriable_exhausted (provider : Provider)
    (call : Nat → Except ModelErr String) (attempt : Nat) {e : ModelErr}
    (h : call attempt = .error e) (hrnf : retriableNonFatal provider e) :
    retryGo provider call attempt 0 = (.error (.raw e), []) := by
  unfold retryGo
  simp only [h]
  rw [if_neg hrnf.2.1, if_neg hrnf.2.2, if_pos hrnf.1]

theorem range_succ_sleeps (attempt k : Nat) :
    (List.range (k + 1)).map (fun i => 500 * 2 ^ (attempt + i)) =
      500 * 2 ^ attempt :: (List.range k).map (fun i => 500 * 2 ^ (attempt + 1 + i)) := by
  rw [List.range_succ_eq_map]
  simp only [List.map_cons, Nat.add_zero, List.map_map]
  congr 1
  apply List.map_congr_left
  intro i _
  simp only [Function.comp_apply]
  congr 2
  omega

theorem retryGo_succeeds (provider : Provider) (call : Nat → Except ModelErr String) :
    ∀ (k attempt remaining : Nat), k ≤ remaining →
    (∀ i, i < k → ∃ e, call (attempt + i) = .error e ∧ retriableNonFatal provider e) →
    ∀ v, call (attempt + k) = .ok v →
    retryGo provider call attempt remaining =
      (.ok v, (List.range k).map (fun i => 500 * 2 ^ (attempt + i))) := by
  intro k
  induction k with
  | zero =>
    intro attempt remaining _ _ v hv
    simp only [List.range_zero, List.map_nil]
    exact retryGo_ok provider call attempt remaining (by simpa using hv)
  | succ k ih =>
    intro attempt remaining hk hfail v hv
    obtain ⟨e, he, hrnf⟩ := hfail 0 (by omega)
    rw [Nat.add_zero] at he
    obtain ⟨r, rfl⟩ : ∃ r, remaining = r + 1 := ⟨remaining - 1, by omega⟩
    rw [retryGo_retriable_step provider call attempt r he hrnf]
    have ihr := ih (attempt + 1) r (by omega)
      (fun i hi => by
        obtain ⟨e', he', hr'⟩ := hfail (i + 1) (by omega)
        exact ⟨e', by rw [show attempt + 1 + i = attempt + (i + 1) by omega]; exact he', hr'⟩)
      v (by rw [show attempt + 1 + k = attempt + (k + 1) by omega]; exact hv)
    rw [ihr, range_succ_sleeps]

theorem retryGo_exhausts (provider : Provider) (call : Nat → Except ModelErr String) :
    ∀ (remaining attempt : Nat),
    (∀ i, i ≤ remaining → ∃ e, call (attempt + i) = .error e ∧ retriableNonFatal provider e) →
    ∃ e, call (attempt + remaining) = .error e ∧
      retryGo provider call attempt remaining =
        (.error (.raw e), (List.range remaining).map (fun i => 500 * 2 ^ (attempt + i))) := by
  intro remaining
  induction remaining with
  | zero =>
    intro attempt hfail
    obtain ⟨e, he, hrnf⟩ := hfail 0 (le_refl 0)
    rw [Nat.add_zero] at he
    exact ⟨e, by simpa using he,
      by simpa using retryGo_retriable_exhausted provider call attempt he hrnf⟩
  | succ r ih =>
    intro attempt hfail
    obtain ⟨e0, he0, hrnf0⟩ := hfail 0 (by omega)
    rw [Nat.add_zero] at he0
    obtain ⟨e, he, hgo⟩ := ih (attempt + 1)
      (fun i hi => by
        obtain ⟨e', he', hr'⟩ := hfail (i + 1) (by omega)
        exact ⟨e', by rw [show attempt + 1 + i = attempt + (i + 1) by omega]; exact he', hr'⟩)
    refine ⟨e, by rw [show attempt + (r + 1) = attempt + 1 + r by omega]; exact he, ?_⟩
    rw [retryGo_retriable_step provider call attempt r he0 hrnf0, hgo, range_succ_sleeps]

/-- C1: the retry controller `callModelWithRetries` over attempts
`0..maxRetries`: (a) a success returns immediately with no sleeps; (b) a
401 error is rethrown immediately as the authentication error, with zero
sleeps, regardless of `maxRetries`; (c) the `insufficient_quota` provider
code is rethrown immediately as the quota error; (d) any other
non-retriable error is rethrown immediately; (e) `k ≤ maxRetries`
retriable failures followed by a success return the success value after
sleeps of exactly `500·2^0, …, 500·2^(k-1)` milliseconds; (f) when every
attempt fails retriably, the last error is rethrown after the loop — never
swallowed — after the full backoff schedule. -/
theorem callModelWithRetries_spec (call : Nat → Except ModelErr String) (maxRetries : Nat) :
    (∀ v, call 0 = .ok v →
      ∀ provider, callModelWithRetries provider call maxRetries = (.ok v, [])) ∧
    (∀ e, call 0 = .error e → e.status = some 401 →
      callModelWithRetries Provider.openai call maxRetries = (.error .auth, [])) ∧
    (∀ e, call 0 = .error e → e.code = some "insufficient_quota" → e.status ≠ some 401 →
      callModelWithRetries Provider.openai call maxRetries = (.error .quota, [])) ∧
    (∀ e, call 0 = .error e → retriableErr e = false → e.status ≠ some 401 →
      e.code ≠ some "insufficient_quota" →
      callModelWithRetries Provider.openai call maxRetries = (.error (.raw e), [])) ∧
    (∀ provider k, k ≤ maxRetries →
      (∀ i, i < k → ∃ e, call i = .error e ∧ retriableNonFatal provider e) →
      ∀ v, call k = .ok v →
      callModelWithRetries provider call maxRetries =
        (.ok v, (List.range k).map (fun i => 500 * 2 ^ i))) ∧
    (∀ provider,
      (∀ i, i ≤ maxRetries → ∃ e, call i = .error e ∧ retriableNonFatal provider e) →
      ∃ e, call maxRetries = .error e ∧
        callModelWithRetries provider call maxRetries =
          (.error (.raw e), (List.range maxRetries).map (fun i => 500 * 2 ^ i))) := by
  refine ⟨?_, ?_, ?_, ?_, ?_, ?_⟩
  · intro v hv provider
    exact retryGo_ok provider call 0 maxRetries hv
  · intro e he h401
    exact retryGo_fatal_auth call 0 maxRetries he h401
  · intro e he hq h401
    exact retryGo_fatal_quota call 0 maxRetries he hq h401
  · intro e he hre h401 hq
    exact retryGo_nonretriable Provider.openai call 0 maxRetries he hre
      (fun hc => h401 hc.1) (fun hc => hq hc.1)
  · intro provider k hk hfail v hv
    have h := retryGo_succeeds provider call k 0 maxRetries hk
      (fun i hi => by simpa using hfail i hi) v (by simpa using hv)
    simpa using h
  · intro provider hfail
    obtain ⟨e, he, hgo⟩ := retryGo_exhausts provider call maxRetries 0
      (fun i hi => by simpa using hfail i hi)
    exact ⟨e, by simpa using he, by simpa using hgo⟩

/-- Witness for `callModelWithRetries_spec`: the 429-429-success call
returns the success value after sleeps of 500 then 1000 ms; the 401 call
fails immediately as the authentication error with zero sleeps although
five retries were allowed. -/
theorem callModelWithRetries_spec_witness :
    callModelWithRetries Provider.openai c1callA 3 = (.ok "note", [500, 1000]) ∧
    callModelWithRetries Provider.openai c1callB 5 = (.error .auth, []) := by
  constructor
  · have h := (callModelWithRetries_spec c1callA 3).2.2.2.2.1 Provider.openai 2 (by omega)
      (fun i hi => ⟨{ status := some 429, code := none, msg := "rate limited" },
        by unfold c1callA; rw [if_pos hi], by decide, by decide, by decide⟩)
      "note" rfl
    have h2 : (List.range 2).map (fun i => 500 * 2 ^ i) = [500, 1000] := by decide
    rw [h2] at h
    exact h
  · exact (callModelWithRetries_spec c1callB 5).2.1
      { status := some 401, code := none, msg := "unauthorized" } rfl rfl

theorem mem_dropLast_cons {u v : String} {l : List String}
    (h : v ∈ (u :: l).dropLast) : v = u ∨ v ∈ l.dropLast := by
  cases l with
  | nil => simp at h
  | cons b t =>
    rw [List.dropLast_cons₂] at h
    rcases List.mem_cons.mp h with h | h
    · exact Or.inl h
    · exact Or.inr h

theorem runBatch_sum (outcome : String → ItemOutcome) (cont : Bool) :
    ∀ entries : List String,
      (runBatchImport outcome cont entries).1.success +
          (runBatchImport outcome cont entries).1.failed =
        (runBatchImport outcome cont entries).2.length := by
  intro entries
  induction entries with
  | nil => rfl
  | cons u rest ih =>
    simp only [runBatchImport]
    cases ho : outcome u with
    | file => simp only [List.length_cons]; omega
    | nullFile => simp only [List.length_cons]; omega
    | err m =>
      cases cont with
      | true => simp; omega
      | false => simp

theorem runBatch_errlen (outcome : String → ItemOutcome) (cont : Bool) :
    ∀ entries : List String,
      (runBatchImport outcome cont entries).1.failed =
        (runBatchImport outcome cont entries).1.errors.length := by
  intro entries
  induction entries with
  | nil => rfl
  | cons u rest ih =>
    simp only [runBatchImport]
    cases ho : outcome u with
    | file => simpa using ih
    | nullFile => simp only [List.length_cons]; omega
    | err m =>
      cases cont with
      | true => simp; omega
      | false => simp

theorem runBatch_isPrefix (outcome : String → ItemOutcome) (cont : Bool) :
    ∀ entries : List String,
      (runBatchImport outcome cont entries).2 <+: entries := by
  intro entries
  induction entries with
  | nil => exact List.prefix_refl _
  | cons u rest ih =>
    simp only [runBatchImport]
    cases ho : outcome u with
    | file => exact List.cons_prefix_cons.mpr ⟨rfl, ih⟩
    | nullFile => exact List.cons_prefix_cons.mpr ⟨rfl, ih⟩
    | err m =>
      cases cont with
      | true => exact List.cons_prefix_cons.mpr ⟨rfl, ih⟩
      | false =>
        simp only [Bool.false_eq_true, if_false]
        exact List.cons_prefix_cons.mpr ⟨rfl, List.nil_prefix⟩

theorem runBatch_cont_all (outcome : String → ItemOutcome) :
    ∀ entries : List String,
      (runBatchImport outcome true entries).2 = entries := by
  intro entries
  induction entries with
  | nil => rfl
  | cons u rest ih =>
    simp only [runBatchImport]
    cases ho : outcome u with
    | file => simpa using ih
    | nullFile => simpa using ih
    | err m => simpa using ih

theorem runBatch_stop (outcome : String → ItemOutcome) :
    ∀ entries : List String,
      (∀ u ∈ entries, outcome u ≠ ItemOutcome.nullFile) →
      (runBatchImport outcome false entries).1.failed ≤ 1 ∧
      (∀ u ∈ (runBatchImport outcome false entries).2.dropLast,
        outcome u = ItemOutcome.file) ∧
      ((runBatchImport outcome false entries).1.failed = 0 →
        (runBatchImport outcome false entries).2 = entries) := by
  intro entries
  induction entries with
  | nil => exact fun _ => ⟨by simp [runBatchImport], by simp [runBatchImport], fun _ => rfl⟩
  | cons u rest ih =>
    intro hnn
    obtain ⟨ih1, ih2, ih3⟩ := ih fun v hv => hnn v (List.mem_cons_of_mem u hv)
    simp only [runBatchImport]
    cases ho : outcome u with
    | file =>
      refine ⟨by simpa using ih1, ?_, ?_⟩
      · intro v hv
        rcases mem_dropLast_cons hv with h | h
        · rw [h, ho]
        · exact ih2 v h
      · intro hf
        simp only at hf ⊢
        rw [ih3 hf]
    | nullFile => exact absurd ho (hnn u (by simp))
    | err m =>
      simp only [Bool.false_eq_true, if_false]
      exact ⟨by simp, by simp, by simp⟩

/-- C2: the batch orchestrator processes entries strictly in input order
(the attempted list — second component — is a prefix of the input); every
attempted entry bumps exactly one of the counters, so
`success + failed = number attempted`, and each failure records one
`{url, message}` entry (`failed = errors.length`); with `continueOnError`
every entry is attempted; without it the loop stops at the first failure —
at most one failure, all earlier attempts succeeded, and only a failure
can cut the run short.  The hypothesis reflects that `runImportSilent`
never actually returns `null`.  Concretely, on three URLs whose second
fails: with `continueOnError = false` the result is one success, one
failure, one recorded error, and the third URL is never attempted; with
`continueOnError = true` all three are attempted and the counts reflect
all outcomes. -/
theorem runBatchImport_spec (outcome : String → ItemOutcome) (continueOnError : Bool)
    (entries : List String)
    (hnn : ∀ u ∈ entries, outcome u ≠ ItemOutcome.nullFile) :
    ((runBatchImport outcome continueOnError entries).1.success +
        (runBatchImport outcome continueOnError entries).1.failed =
      (runBatchImport outcome continueOnError entries).2.length) ∧
    ((runBatchImport outcome continueOnError entries).1.failed =
      (runBatchImport outcome continueOnError entries).1.errors.length) ∧
    (runBatchImport outcome continueOnError entries).2 <+: entries ∧
    (continueOnError = true →
      (runBatchImport outcome continueOnError entries).2 = entries) ∧
    (continueOnError = false →
      (runBatchImport outcome continueOnError entries).1.failed ≤ 1 ∧
      (∀ u ∈ (runBatchImport outcome continueOnError entries).2.dropLast,
        outcome u = ItemOutcome.file) ∧
      ((runBatchImport outcome continueOnError entries).1.failed = 0 →
        (runBatchImport outcome continueOnError entries).2 = entries)) ∧
    runBatchImport c2outcome false ["u1", "u2", "u3"] =
      ({ success := 1, failed := 1, errors := [("u2", "boom")] }, ["u1", "u2"]) ∧
    runBatchImport c2outcome true ["u1", "u2", "u3"] =
      ({ success := 2, failed := 1, errors := [("u2", "boom")] }, ["u1", "u2", "u3"]) := by
  refine ⟨runBatch_sum outcome continueOnError entries,
    runBatch_errlen outcome continueOnError entries,
    runBatch_isPrefix outcome continueOnError entries,
    fun hc => ?_, fun hc => ?_, by decide, by decide⟩
  · subst hc
    exact runBatch_cont_all outcome entries
  · subst hc
    exact runBatch_stop outcome entries hnn

/-- Witness for `runBatchImport_spec` at the concrete scenario (the
`nullFile` hypothesis discharged by computation). -/
theorem runBatchImport_spec_witness :
    (runBatchImport c2outcome false ["u1", "u2", "u3"]).1.success +
        (runBatchImport c2outcome false ["u1", "u2", "u3"]).1.failed =
      (runBatchImport c2outcome false ["u1", "u2", "u3"]).2.length ∧
    runBatchImport c2outcome false ["u1", "u2", "u3"] =
      ({ success := 1, failed := 1, errors := [("u2", "boom")] }, ["u1", "u2"]) := by
  have h := runBatchImport_spec c2outcome false ["u1", "u2", "u3"] (by decide)
  exact ⟨h.1, h.2.2.2.2.2.1⟩

/-- Counterexample to C3 as stated: `ensureFrontmatterPresent` performs no
fenced-code-block unwrapping — a response wrapped in a fenced block whose
inner text is a valid frontmatter note fails with the missing-header
`FrontmatterError`, even under a YAML parser that accepts the inner
block. -/
theorem ensureFrontmatterPresent_no_fence_unwrap :
    ensureFrontmatterPresent c3yaml "```\n---\ntitle: A\n---\nbody\n```" =
      .error FmError.noHeader := rfl

theorem ensureFm_ok (parseYaml : String → Except String YamlVal) (note : String)
    (second : Nat) (h1 : jsStartsWith note "---" = true)
    (h2 : (firstMatch "\n---".data (note.data.drop 3)).map (· + 3) = some second)
    (h3 : parseYaml (jsTrim (jsSlice note 3 second)) = .ok .objectLike) :
    ensureFrontmatterPresent parseYaml note = .ok note := by
  unfold ensureFrontmatterPresent
  rw [if_neg (not_not_intro h1), h2]
  simp [h3]

/-- C3 (amended): `ensureFrontmatterPresent` requires the text to start
with a `---` delimiter and to contain a closing `\n---`, failing with a
`FrontmatterError` when either is missing; no fenced-code-block
unwrapping is performed.  When the trimmed header block parses as a YAML
mapping, the note is returned unchanged.  Concretely,
`"---\ntitle: A\n---\nbody"` validates and is returned unchanged under
every parser accepting `"title: A"`, and `"no header"` fails with the
missing-header error under every parser. -/
theorem ensureFrontmatterPresent_spec (parseYaml : String → Except String YamlVal) :
    (∀ note : String, ¬ (jsStartsWith note "---" = true) →
      ensureFrontmatterPresent parseYaml note = .error FmError.noHeader) ∧
    (∀ note : String, jsStartsWith note "---" = true →
      firstMatch "\n---".data (note.data.drop 3) = none →
      ensureFrontmatterPresent parseYaml note = .error FmError.noClose) ∧
    (parseYaml "title: A" = .ok YamlVal.objectLike →
      ensureFrontmatterPresent parseYaml "---\ntitle: A\n---\nbody" =
        .ok "---\ntitle: A\n---\nbody") ∧
    ensureFrontmatterPresent parseYaml "no header" = .error FmError.noHeader := by
  refine ⟨?_, ?_, ?_, ?_⟩
  · intro note h
    unfold ensureFrontmatterPresent
    rw [if_pos h]
  · intro note h1 h2
    unfold ensureFrontmatterPresent
    rw [if_neg (not_not_intro h1)]
    simp [h2]
  · intro hp
    refine ensureFm_ok parseYaml "---\ntitle: A\n---\nbody" 12 (by decide) (by decide) ?_
    rw [show jsTrim (jsSlice "---\ntitle: A\n---\nbody" 3 12) = "title: A" by decide]
    exact hp
  · unfold ensureFrontmatterPresent
    rw [if_pos (by decide)]

/-- Witness for `ensureFrontmatterPresent_spec` under the concrete parser:
the well-formed note validates unchanged, the header-less note fails. -/
theorem ensureFrontmatterPresent_spec_witness :
    ensureFrontmatterPresent c3yaml "---\ntitle: A\n---\nbody" =
      .ok "---\ntitle: A\n---\nbody" ∧
    ensureFrontmatterPresent c3yaml "no header" = .error FmError.noHeader :=
  ⟨(ensureFrontmatterPresent_spec c3yaml).2.2.1 rfl,
    (ensureFrontmatterPresent_spec c3yaml).2.2.2⟩

theorem csvRowsLoop_skip {parseUrl : String → Option JsUrl} {urlColumn : String}
    {labelColumn : Option String} {row : List (String × String)}
    {rest : List (List (String × String))} {i : Nat} {seen : List String}
    (h : rowTruthyLookup row urlColumn = none) :
    csvRowsLoop parseUrl urlColumn labelColumn (row :: rest) i seen =
      csvRowsLoop parseUrl urlColumn labelColumn rest (i + 1) seen := by
  simp only [csvRowsLoop, h]

theorem csvRowsLoop_invalid {parseUrl : String → Option JsUrl} {urlColumn : String}
    {labelColumn : Option String} {row : List (String × String)}
    {rest : List (List (String × String))} {i : Nat} {seen : List String} {rawUrl : String}
    (h : rowTruthyLookup row urlColumn = some rawUrl)
    (hv : ¬ isValidUrl parseUrl (normalizeUrl rawUrl) = true) :
    csvRowsLoop parseUrl urlColumn labelColumn (row :: rest) i seen =
      ((csvRowsLoop parseUrl urlColumn labelColumn rest (i + 1) seen).1,
        ("Row " ++ toString (i + 2) ++ ": Invalid URL \"" ++ rawUrl ++ "\"") ::
          (csvRowsLoop parseUrl urlColumn labelColumn rest (i + 1) seen).2) := by
  simp only [csvRowsLoop, h]
  rw [if_pos hv]

theorem csvRowsLoop_dup {parseUrl : String → Option JsUrl} {urlColumn : String}
    {labelColumn : Option String} {row : List (String × String)}
    {rest : List (List (String × String))} {i : Nat} {seen : List String} {rawUrl : String}
    (h : rowTruthyLookup row urlColumn = some rawUrl)
    (hv : isValidUrl parseUrl (normalizeUrl rawUrl) = true)
    (hs : normalizeUrl rawUrl ∈ seen) :
    csvRowsLoop parseUrl urlColumn labelColumn (row :: rest) i seen =
      csvRowsLoop parseUrl urlColumn labelColumn rest (i + 1) seen := by
  simp only [csvRowsLoop, h]
  rw [if_neg (not_not_intro hv), if_pos hs]

theorem csvRowsLoop_push {parseUrl : String → Option JsUrl} {urlColumn : String}
    {labelColumn : Option String} {row : List (String × String)}
    {rest : List (List (String × String))} {i : Nat} {seen : List String} {rawUrl : String}
    (h : rowTruthyLookup row urlColumn = some rawUrl)
    (hv : isValidUrl parseUrl (normalizeUrl rawUrl) = true)
    (hs : normalizeUrl rawUrl ∉ seen) :
    csvRowsLoop parseUrl urlColumn labelColumn (row :: rest) i seen =
      ({ url := normalizeUrl rawUrl,
          label :=
            match labelColumn with
            | some lc => (rowTruthyLookup row lc).map jsTrim
            | none => none } ::
          (csvRowsLoop parseUrl urlColumn labelColumn rest (i + 1)
            (normalizeUrl rawUrl :: seen)).1,
        (csvRowsLoop parseUrl urlColumn labelColumn rest (i + 1)
          (normalizeUrl rawUrl :: seen)).2) := by
  simp only [csvRowsLoop, h]
  rw [if_neg (not_not_intro hv), if_neg hs]

theorem csvRowsLoop_inv (parseUrl : String → Option JsUrl) (urlColumn : String)
    (labelColumn : Option String) :
    ∀ (rows : List (List (String × String))) (i : Nat) (seen : List String),
      (∀ e ∈ (csvRowsLoop parseUrl urlColumn labelColumn rows i seen).1,
        isValidUrl parseUrl e.url = true ∧ e.url ∉ seen) ∧
      ((csvRowsLoop parseUrl urlColumn labelColumn rows i seen).1.map
        CsvUrlEntry.url).Nodup := by
  intro rows
  induction rows with
  | nil => intro i seen; exact ⟨by simp [csvRowsLoop], by simp [csvRowsLoop]⟩
  | cons row rest ih =>
    intro i seen
    cases hlk : rowTruthyLookup row urlColumn with
    | none =>
      rw [csvRowsLoop_skip hlk]
      exact ih (i + 1) seen
    | some rawUrl =>
      by_cases hv : isValidUrl parseUrl (normalizeUrl rawUrl) = true
      · by_cases hs : normalizeUrl rawUrl ∈ seen
        · rw [csvRowsLoop_dup hlk hv hs]
          exact ih (i + 1) seen
        · rw [csvRowsLoop_push hlk hv hs]
          obtain ⟨ihv, ihn⟩ := ih (i + 1) (normalizeUrl rawUrl :: seen)
          constructor
          · intro e he
            rcases List.mem_cons.mp he with h | h
            · rw [h]
              exact ⟨hv, hs⟩
            · exact ⟨(ihv e h).1, fun hm => (ihv e h).2 (List.mem_cons_of_mem _ hm)⟩
          · simp only [List.map_cons, List.nodup_cons]
            refine ⟨fun hmem => ?_, ihn⟩
            rcases List.mem_map.mp hmem with ⟨e, he, heq⟩
            exact (ihv e he).2 (heq ▸ List.mem_cons_self _ _)
      · rw [csvRowsLoop_invalid hlk hv]
        exact ih (i + 1) seen

theorem urlListLoop_comment {parseUrl : String → Option JsUrl} {line0 : String}
    {rest : List String} {i : Nat} {seen : List String}
    (h : jsTrim line0 = "" ∨ jsStartsWith (jsTrim line0) "#" = true) :
    urlListLoop parseUrl (line0 :: rest) i seen = urlListLoop parseUrl rest (i + 1) seen := by
  simp only [urlListLoop]
  rw [if_pos h]

theorem urlListLoop_invalid {parseUrl : String → Option JsUrl} {line0 : String}
    {rest : List String} {i : Nat} {seen : List String}
    (h : ¬(jsTrim line0 = "" ∨ jsStartsWith (jsTrim line0) "#" = true))
    (hv : ¬ isValidUrl parseUrl (normalizeUrl (lineParts (jsTrim line0)).1) = true) :
    urlListLoop parseUrl (line0 :: rest) i seen =
      ((urlListLoop parseUrl rest (i + 1) seen).1,
        ("Line " ++ toString (i + 1) ++ ": Invalid URL \"" ++
            (lineParts (jsTrim line0)).1 ++ "\"") ::
          (urlListLoop parseUrl rest (i + 1) seen).2) := by
  simp only [urlListLoop]
  rw [if_neg h]
  rw [show (match firstMatch [','] (jsTrim line0).data with
    | some ci => (jsTrim (jsSlice (jsTrim line0) 0 ci),
        jsTrim (jsSliceFrom (jsTrim line0) (ci + 1)))
    | none => (jsTrim line0, "")) = lineParts (jsTrim line0) from rfl]
  rw [if_pos hv]

theorem urlListLoop_dup {parseUrl : String → Option JsUrl} {line0 : String}
    {rest : List String} {i : Nat} {seen : List String}
    (h : ¬(jsTrim line0 = "" ∨ jsStartsWith (jsTrim line0) "#" = true))
    (hv : isValidUrl parseUrl (normalizeUrl (lineParts (jsTrim line0)).1) = true)
    (hs : normalizeUrl (lineParts (jsTrim line0)).1 ∈ seen) :
    urlListLoop parseUrl (line0 :: rest) i seen = urlListLoop parseUrl rest (i + 1) seen := by
  simp only [urlListLoop]
  rw [if_neg h]
  rw [show (match firstMatch [','] (jsTrim line0).data with
    | some ci => (jsTrim (jsSlice (jsTrim line0) 0 ci),
        jsTrim (jsSliceFrom (jsTrim line0) (ci + 1)))
    | none => (jsTrim line0, "")) = lineParts (jsTrim line0) from rfl]
  rw [if_neg (not_not_intro hv), if_pos hs]

theorem urlListLoop_push {parseUrl : String → Option JsUrl} {line0 : String}
    {rest : List String} {i : Nat} {seen : List String}
    (h : ¬(jsTrim line0 = "" ∨ jsStartsWith (jsTrim line0) "#" = true))
    (hv : isValidUrl parseUrl (normalizeUrl (lineParts (jsTrim line0)).1) = true)
    (hs : normalizeUrl (lineParts (jsTrim line0)).1 ∉ seen) :
    urlListLoop parseUrl (line0 :: rest) i seen =
      ({ url := normalizeUrl (lineParts (jsTrim line0)).1,
          label := if (lineParts (jsTrim line0)).2 = "" then none
            else some (lineParts (jsTrim line0)).2 } ::
          (urlListLoop parseUrl rest (i + 1)
            (normalizeUrl (lineParts (jsTrim line0)).1 :: seen)).1,
        (urlListLoop parseUrl rest (i + 1)
          (normalizeUrl (lineParts (jsTrim line0)).1 :: seen)).2) := by
  simp only [urlListLoop]
  rw [if_neg h]
  rw [show (match firstMatch [','] (jsTrim line0).data with
    | some ci => (jsTrim (jsSlice (jsTrim line0) 0 ci),
        jsTrim (jsSliceFrom (jsTrim line0) (ci + 1)))
    | none => (jsTrim line0, "")) = lineParts (jsTrim line0) from rfl]
  rw [if_neg (not_not_intro hv), if_neg hs]

theorem urlListLoop_inv (parseUrl : String → Option JsUrl) :
    ∀ (lines : List String) (i : Nat) (seen : List String),
      (∀ e ∈ (urlListLoop parseUrl lines i seen).1,
        isValidUrl parseUrl e.url = true ∧ e.url ∉ seen) ∧
      ((urlListLoop parseUrl lines i seen).1.map CsvUrlEntry.url).Nodup := by
  intro lines
  induction lines with
  | nil => intro i seen; exact ⟨by simp [urlListLoop], by simp [urlListLoop]⟩
  | cons line0 rest ih =>
    intro i seen
    by_cases hcomment : jsTrim line0 = "" ∨ jsStartsWith (jsTrim line0) "#" = true
    · rw [urlListLoop_comment hcomment]
      exact ih (i + 1) seen
    · by_cases hv : isValidUrl parseUrl (normalizeUrl (lineParts (jsTrim line0)).1) = true
      · by_cases hs : normalizeUrl (lineParts (jsTrim line0)).1 ∈ seen
        · rw [urlListLoop_dup hcomment hv hs]
          exact ih (i + 1) seen
        · rw [urlListLoop_push hcomment hv hs]
          obtain ⟨ihv, ihn⟩ := ih (i + 1) (normalizeUrl (lineParts (jsTrim line0)).1 :: seen)
          constructor
          · intro e he
            rcases List.mem_cons.mp he with hme | hme
            · rw [hme]
              exact ⟨hv, hs⟩
            · exact ⟨(ihv e hme).1, fun hm => (ihv e hme).2 (List.mem_cons_of_mem _ hm)⟩
          · simp only [List.map_cons, List.nodup_cons]
            refine ⟨fun hmem => ?_, ihn⟩
            rcases List.mem_map.mp hmem with ⟨e, he, heq⟩
            exact (ihv e he).2 (heq ▸ List.mem_cons_self _ _)
      · rw [urlListLoop_invalid hcomment hv]
        exact ih (i + 1) seen

theorem parseCsvContent_inv (papa : String → PapaResult) (parseUrl : String → Option JsUrl)
    (csvText : String) :
    (∀ e ∈ (parseCsvContent papa parseUrl csvText).entries,
      isValidUrl parseUrl e.url = true) ∧
    ((parseCsvContent papa parseUrl csvText).entries.map CsvUrlEntry.url).Nodup := by
  unfold parseCsvContent
  by_cases h0 : csvText = "" ∨ jsTrim csvText = ""
  · rw [if_pos h0]
    exact ⟨by simp, by simp⟩
  · rw [if_neg h0]
    by_cases hh : ((papa csvText).fields.getD []).isEmpty = true
    · rw [if_pos hh]
      exact ⟨by simp, by simp⟩
    · rw [if_neg hh]
      cases hcol : detectUrlColumn ((papa csvText).fields.getD []) with
      | none => exact ⟨by simp, by simp⟩
      | some urlColumn =>
        obtain ⟨hval, hnd⟩ := csvRowsLoop_inv parseUrl urlColumn
          (detectLabelColumn ((papa csvText).fields.getD [])) (papa csvText).data 0 []
        exact ⟨fun e he => (hval e he).1, hnd⟩

theorem parseUrlList_inv (parseUrl : String → Option JsUrl) (text : String) :
    (∀ e ∈ (parseUrlList parseUrl text).entries, isValidUrl parseUrl e.url = true) ∧
    ((parseUrlList parseUrl text).entries.map CsvUrlEntry.url).Nodup := by
  obtain ⟨hval, hnd⟩ := urlListLoop_inv parseUrl
    ((splitLinesJs text).filter (fun l => !(jsTrim l == ""))) 0 []
  exact ⟨fun e he => (hval e he).1, hnd⟩

/-- C8: for every input text (and any behaviour of the external PapaParse
and URL-parser collaborators), `parseUrlInput` returns a result — the
embedding is a total function, no exception escapes — in which every
entry's URL passes the `isValidUrl` http/https check, and the entry URLs
are de-duplicated (pairwise distinct).  Concretely, on a bare list whose
second line is an invalid URL, the two valid URLs are returned, the broken
line is recorded as a parse error without aborting, and on a list
repeating a URL with two labels, the first occurrence wins. -/
theorem parseUrlInput_spec (papa : String → PapaResult) (parseUrl : String → Option JsUrl)
    (text : String) :
    (∀ e ∈ (parseUrlInput papa parseUrl text).entries, isValidUrl parseUrl e.url = true) ∧
    ((parseUrlInput papa parseUrl text).entries.map CsvUrlEntry.url).Nodup ∧
    parseUrlInput c8papa c8parse "https://a.com\n:::bad:::\nhttps://b.com" =
      { entries := [{ url := "https://a.com", label := none },
          { url := "https://b.com", label := none }],
        errors := ["Line 2: Invalid URL \":::bad:::\""] } ∧
    parseUrlInput c8papa c8parse "https://a.com,First\nhttps://a.com,Second\nhttps://b.com" =
      { entries := [{ url := "https://a.com", label := some "First" },
          { url := "https://b.com", label := none }],
        errors := [] } := by
  refine ⟨?_, ?_, by decide, by decide⟩ <;>
  · unfold parseUrlInput
    by_cases h0 : jsTrim text = ""
    · rw [if_pos h0]
      simp
    · rw [if_neg h0]
      by_cases hh : (jsIncludes (jsToLower ((splitLinesJs (jsTrim text)).headD "")) "," &&
          headerPatterns.any
            (fun p => jsIncludes (jsToLower ((splitLinesJs (jsTrim text)).headD "")) p)) = true
      · rw [if_pos hh]
        first
          | exact (parseCsvContent_inv papa parseUrl (jsTrim text)).1
          | exact (parseCsvContent_inv papa parseUrl (jsTrim text)).2
      · rw [if_neg hh]
        first
          | exact (parseUrlList_inv parseUrl (jsTrim text)).1
          | exact (parseUrlList_inv parseUrl (jsTrim text)).2

theorem braceFreeB_not_brace {l : List Char} {c : Char} (h : braceFreeB l = true)
    (hc : c ∈ l) : c ≠ '{' := by
  simp only [braceFreeB, List.all_eq_true] at h
  simpa using h c hc

theorem braceFreeB_append {x y : List Char} (hx : braceFreeB x = true)
    (hy : braceFreeB y = true) : braceFreeB (x ++ y) = true := by
  simp only [braceFreeB, List.all_eq_true] at hx hy ⊢
  intro c hc
  rcases List.mem_append.mp hc with h | h
  · exact hx c h
  · exact hy c h

theorem startsWithL_self_append : ∀ (p r : List Char), startsWithL p (p ++ r) = true := by
  intro p
  induction p with
  | nil => intro r; rfl
  | cons c p' ih =>
    intro r
    show startsWithL (c :: p') (c :: (p' ++ r)) = true
    simp [startsWithL, ih r]

theorem firstMatch_hit : ∀ (a p' b : List Char), braceFreeB a = true →
    firstMatch ('{' :: p') (a ++ (('{' :: p') ++ b)) = some a.length := by
  intro a
  induction a with
  | nil =>
    intro p' b _
    show firstMatch ('{' :: p') ('{' :: (p' ++ b)) = some 0
    have hs : startsWithL ('{' :: p') ('{' :: (p' ++ b)) = true := by
      have := startsWithL_self_append ('{' :: p') b
      simpa using this
    simp only [firstMatch, hs, if_true]
  | cons c a' ih =>
    intro p' b hbf
    have hc : c ≠ '{' := braceFreeB_not_brace hbf (by simp)
    have hbf' : braceFreeB a' = true := by
      simp only [braceFreeB, List.all_eq_true] at hbf ⊢
      exact fun d hd => hbf d (List.mem_cons_of_mem c hd)
    show firstMatch ('{' :: p') (c :: (a' ++ (('{' :: p') ++ b))) = some (a'.length + 1)
    have hsw : startsWithL ('{' :: p') (c :: (a' ++ (('{' :: p') ++ b))) = false := by
      simp only [startsWithL, Bool.and_eq_false_iff]
      left
      simpa using fun h => hc h.symm
    simp only [firstMatch, hsw, Bool.false_eq_true, if_false, ih p' b hbf',
      Option.map_some']

theorem firstMatch_none_braceFree : ∀ (s p' : List Char), braceFreeB s = true →
    firstMatch ('{' :: p') s = none := by
  intro s
  induction s with
  | nil => intro p' _; rfl
  | cons c t ih =>
    intro p' hbf
    have hc : c ≠ '{' := braceFreeB_not_brace hbf (by simp)
    have hbf' : braceFreeB t = true := by
      simp only [braceFreeB, List.all_eq_true] at hbf ⊢
      exact fun d hd => hbf d (List.mem_cons_of_mem c hd)
    have hsw : startsWithL ('{' :: p') (c :: t) = false := by
      simp only [startsWithL, Bool.and_eq_false_iff]
      left
      simpa using fun h => hc h.symm
    simp only [firstMatch, hsw, Bool.false_eq_true, if_false, ih p' hbf',
      Option.map_none']

theorem firstMatch_none_append : ∀ (x r p' : List Char), braceFreeB x = true →
    firstMatch ('{' :: p') r = none → firstMatch ('{' :: p') (x ++ r) = none := by
  intro x
  induction x with
  | nil => intro r p' _ hr; simpa using hr
  | cons c x' ih =>
    intro r p' hbf hr
    have hc : c ≠ '{' := braceFreeB_not_brace hbf (by simp)
    have hbf' : braceFreeB x' = true := by
      simp only [braceFreeB, List.all_eq_true] at hbf ⊢
      exact fun d hd => hbf d (List.mem_cons_of_mem c hd)
    have hsw : startsWithL ('{' :: p') (c :: (x' ++ r)) = false := by
      simp only [startsWithL, Bool.and_eq_false_iff]
      left
      simpa using fun h => hc h.symm
    show firstMatch ('{' :: p') (c :: (x' ++ r)) = none
    simp only [firstMatch, hsw, Bool.false_eq_true, if_false, ih r p' hbf' hr,
      Option.map_none']

theorem firstMatch_none_at_ph (q' p'' rest : List Char)
    (hsw : startsWithL ('{' :: q') (('{' :: p'') ++ rest) = false)
    (hp : braceFreeB p'' = true)
    (hrest : firstMatch ('{' :: q') rest = none) :
    firstMatch ('{' :: q') (('{' :: p'') ++ rest) = none := by
  show firstMatch ('{' :: q') ('{' :: (p'' ++ rest)) = none
  have hsw' : startsWithL ('{' :: q') ('{' :: (p'' ++ rest)) = false := by simpa using hsw
  simp only [firstMatch, hsw', Bool.false_eq_true, if_false,
    firstMatch_none_append p'' rest q' hp hrest, Option.map_none']

theorem startsWithL_false_of_zipdiff :
    ∀ (q p r : List Char), ((p.zip q).any (fun x => decide (x.1 ≠ x.2))) = true →
      startsWithL q (p ++ r) = false := by
  intro q
  induction q with
  | nil => intro p r h; cases p <;> simp at h
  | cons b q' ih =>
    intro p r h
    cases p with
    | nil => simp at h
    | cons a p' =>
      by_cases hab : a = b
      · have h' : ((p'.zip q').any (fun x => decide (x.1 ≠ x.2))) = true := by
          simpa [hab] using h
        show startsWithL (b :: q') (a :: (p' ++ r)) = false
        simp only [startsWithL, ih p' r h', Bool.and_false]
      · show startsWithL (b :: q') (a :: (p' ++ r)) = false
        simp only [startsWithL, Bool.and_eq_false_iff]
        left
        simpa using fun hba => hab hba.symm

theorem data_append (a b : String) : (a ++ b).data = a.data ++ b.data := by
  cases a
  cases b
  rfl

theorem string_append_empty (s : String) : s ++ "" = s := by
  apply string_eq_of_data
  rw [data_append]
  show s.data ++ [] = s.data
  exact List.append_nil _

theorem placeholders_headed : ∀ p ∈ placeholderList,
    p.data.headD ' ' = '{' ∧ p.data ≠ [] ∧ braceFreeB p.data.tail = true := by decide

theorem placeholders_diverge : ∀ p ∈ placeholderList, ∀ q ∈ placeholderList, p ≠ q →
    ((p.data.zip q.data).any (fun x => decide (x.1 ≠ x.2))) = true := by decide

theorem placeholder_data_eq {p : String} (hp : p ∈ placeholderList) :
    p.data = '{' :: p.data.tail ∧ braceFreeB p.data.tail = true := by
  obtain ⟨h1, h2, h3⟩ := placeholders_headed p hp
  refine ⟨?_, h3⟩
  cases hd : p.data with
  | nil => exact absurd hd h2
  | cons c t =>
    rw [hd] at h1
    rw [List.headD_cons] at h1
    rw [h1]
    rfl

theorem splice_append (a pat b v : List Char) :
    (a ++ (pat ++ b)).take a.length ++ v ++ (a ++ (pat ++ b)).drop (a.length + pat.length) =
      a ++ (v ++ b) := by
  have ht : (a ++ (pat ++ b)).take a.length = a := List.take_left a (pat ++ b)
  have hd : (a ++ (pat ++ b)).drop (a.length + pat.length) = b := by
    rw [← List.append_assoc]
    have hl : a.length + pat.length = (a ++ pat).length := (List.length_append a pat).symm
    rw [hl, List.drop_left]
  rw [ht, hd, List.append_assoc]

theorem firstMatch_none_one_ph {q p : String} (hq : q ∈ placeholderList)
    (hp : p ∈ placeholderList) (hne : p ≠ q) (x1 x2 : List Char)
    (hx1 : braceFreeB x1 = true) (hx2 : braceFreeB x2 = true) :
    firstMatch q.data (x1 ++ (p.data ++ x2)) = none := by
  obtain ⟨hpd, hpt⟩ := placeholder_data_eq hp
  obtain ⟨hqd, _⟩ := placeholder_data_eq hq
  have hsw : startsWithL q.data (p.data ++ x2) = false :=
    startsWithL_false_of_zipdiff q.data p.data x2 (placeholders_diverge p hp q hq hne)
  rw [hqd]
  apply firstMatch_none_append x1 _ _ hx1
  rw [hpd]
  apply firstMatch_none_at_ph
  · rw [← hpd, ← hqd]
    exact hsw
  · exact hpt
  · rw [← hqd]
    rw [hqd]
    exact firstMatch_none_braceFree x2 _ hx2

theorem firstMatch_none_two_ph {q p : String} (hq : q ∈ placeholderList)
    (hp : p ∈ placeholderList) (hne : p ≠ q) (x1 x2 x3 : List Char)
    (hx1 : braceFreeB x1 = true) (hx2 : braceFreeB x2 = true)
    (hx3 : braceFreeB x3 = true) :
    firstMatch q.data (x1 ++ (p.data ++ (x2 ++ (p.data ++ x3)))) = none := by
  obtain ⟨hpd, hpt⟩ := placeholder_data_eq hp
  obtain ⟨hqd, _⟩ := placeholder_data_eq hq
  have hsw : ∀ r, startsWithL q.data (p.data ++ r) = false := fun r =>
    startsWithL_false_of_zipdiff q.data p.data r (placeholders_diverge p hp q hq hne)
  rw [hqd]
  apply firstMatch_none_append x1 _ _ hx1
  rw [hpd]
  apply firstMatch_none_at_ph
  · rw [← hpd, ← hqd]
    exact hsw _
  · exact hpt
  · rw [← hqd, ← hpd]
    exact firstMatch_none_one_ph hq hp hne x2 x3 hx2 hx3

/-- The data of the two-occurrence template, right associated. -/
theorem shapeA_data (pre p mid post : String) :
    (pre ++ p ++ mid ++ p ++ post).data =
      pre.data ++ (p.data ++ (mid.data ++ (p.data ++ post.data))) := by
  simp [data_append]

theorem replaceFirst_noop_shapeA {q p : String} (pre mid post w : String)
    (hq : q ∈ placeholderList) (hp : p ∈ placeholderList) (hne : p ≠ q)
    (hpre : braceFreeB pre.data = true) (hmid : braceFreeB mid.data = true)
    (hpost : braceFreeB post.data = true) :
    replaceFirst (pre ++ p ++ mid ++ p ++ post) q w = pre ++ p ++ mid ++ p ++ post := by
  apply string_eq_of_data
  show replaceFirstL (pre ++ p ++ mid ++ p ++ post).data q.data w.data =
    (pre ++ p ++ mid ++ p ++ post).data
  unfold replaceFirstL
  rw [shapeA_data, firstMatch_none_two_ph hq hp hne pre.data mid.data post.data
    hpre hmid hpost]

theorem replaceFirst_noop_shapeB {q p : String} (pre v mid post w : String)
    (hq : q ∈ placeholderList) (hp : p ∈ placeholderList) (hne : p ≠ q)
    (hpre : braceFreeB pre.data = true) (hv : braceFreeB v.data = true)
    (hmid : braceFreeB mid.data = true) (hpost : braceFreeB post.data = true) :
    replaceFirst (pre ++ v ++ mid ++ p ++ post) q w = pre ++ v ++ mid ++ p ++ post := by
  apply string_eq_of_data
  show replaceFirstL (pre ++ v ++ mid ++ p ++ post).data q.data w.data =
    (pre ++ v ++ mid ++ p ++ post).data
  unfold replaceFirstL
  have hD : (pre ++ v ++ mid ++ p ++ post).data =
      (pre.data ++ v.data ++ mid.data) ++ (p.data ++ post.data) := by
    simp [data_append]
  rw [hD, firstMatch_none_one_ph hq hp hne (pre.data ++ v.data ++ mid.data) post.data
    (braceFreeB_append (braceFreeB_append hpre hv) hmid) hpost]

theorem replaceFirst_hit_shapeA {p : String} (pre mid post v : String)
    (hp : p ∈ placeholderList) (hpre : braceFreeB pre.data = true) :
    replaceFirst (pre ++ p ++ mid ++ p ++ post) p v = pre ++ v ++ mid ++ p ++ post := by
  apply string_eq_of_data
  show replaceFirstL (pre ++ p ++ mid ++ p ++ post).data p.data v.data =
    (pre ++ v ++ mid ++ p ++ post).data
  obtain ⟨hpd, _⟩ := placeholder_data_eq hp
  unfold replaceFirstL
  rw [shapeA_data]
  have hhit : firstMatch p.data
      (pre.data ++ (p.data ++ (mid.data ++ (p.data ++ post.data)))) = some pre.data.length := by
    conv_lhs => rw [hpd]
    exact firstMatch_hit pre.data p.data.tail
      (mid.data ++ (('{' :: p.data.tail) ++ post.data)) hpre
  simp only [hhit]
  have hsp := splice_append pre.data p.data (mid.data ++ (p.data ++ post.data)) v.data
  rw [hsp]
  simp [data_append]

theorem buildPrompt_eq_base_suffix (url : String) (meta : PromptMeta)
    (defaultTags : Option (String ⊕ List String)) (template : String) :
    buildPrompt url meta defaultTags template =
      substitutePlaceholders url meta template ++ tagsSuffix defaultTags := by
  unfold buildPrompt tagsSuffix
  by_cases h : (tagsArrayOf defaultTags).isEmpty
  · simp only [h, if_true]
    exact (string_append_empty _).symm
  · simp only [h, Bool.false_eq_true, if_false]
    apply string_eq_of_data
    simp [data_append]

theorem substitute_first_occurrence {p : String} (hp : p ∈ placeholderList)
    (url : String) (meta : PromptMeta) (pre mid post : String)
    (hpre : braceFreeB pre.data = true) (hmid : braceFreeB mid.data = true)
    (hpost : braceFreeB post.data = true)
    (hv : braceFreeB (phValue url meta p).data = true) :
    substitutePlaceholders url meta (pre ++ p ++ mid ++ p ++ post) =
      pre ++ phValue url meta p ++ mid ++ p ++ post := by
  simp only [placeholderList, List.mem_cons, List.not_mem_nil, or_false] at hp
  rcases hp with rfl | rfl | rfl | rfl | rfl | rfl
  · show replaceFirst (replaceFirst (replaceFirst (replaceFirst (replaceFirst (replaceFirst
        (pre ++ "{url}" ++ mid ++ "{url}" ++ post) "{url}" url)
        "{title}" meta.title)
        "{authors}" (joinWith ", " meta.authors))
        "{published}" meta.published)
        "{source}" meta.sourceGuess)
        "{article_text}"
        (if jsTrim meta.text = "" then "_NO ARTICLE TEXT EXTRACTED_" else jsTrim meta.text) =
      pre ++ phValue url meta "{url}" ++ mid ++ "{url}" ++ post
    rw [replaceFirst_hit_shapeA pre mid post url (by decide) hpre]
    rw [replaceFirst_noop_shapeB pre url mid post meta.title
      (by decide) (by decide) (by decide) hpre hv hmid hpost]
    rw [replaceFirst_noop_shapeB pre url mid post (joinWith ", " meta.authors)
      (by decide) (by decide) (by decide) hpre hv hmid hpost]
    rw [replaceFirst_noop_shapeB pre url mid post meta.published
      (by decide) (by decide) (by decide) hpre hv hmid hpost]
    rw [replaceFirst_noop_shapeB pre url mid post meta.sourceGuess
      (by decide) (by decide) (by decide) hpre hv hmid hpost]
    rw [replaceFirst_noop_shapeB pre url mid post
      (if jsTrim meta.text = "" then "_NO ARTICLE TEXT EXTRACTED_" else jsTrim meta.text)
      (by decide) (by decide) (by decide) hpre hv hmid hpost]
    rfl
  · show replaceFirst (replaceFirst (replaceFirst (replaceFirst (replaceFirst (replaceFirst
        (pre ++ "{title}" ++ mid ++ "{title}" ++ post) "{url}" url)
        "{title}" meta.title)
        "{authors}" (joinWith ", " meta.authors))
        "{published}" meta.published)
        "{source}" meta.sourceGuess)
        "{article_text}"
        (if jsTrim meta.text = "" then "_NO ARTICLE TEXT EXTRACTED_" else jsTrim meta.text) =
      pre ++ phValue url meta "{title}" ++ mid ++ "{title}" ++ post
    rw [replaceFirst_noop_shapeA pre mid post url
      (by decide) (by decide) (by decide) hpre hmid hpost]
    rw [replaceFirst_hit_shapeA pre mid post meta.title (by decide) hpre]
    rw [replaceFirst_noop_shapeB pre meta.title mid post (joinWith ", " meta.authors)
      (by decide) (by decide) (by decide) hpre hv hmid hpost]
    rw [replaceFirst_noop_shapeB pre meta.title mid post meta.published
      (by decide) (by decide) (by decide) hpre hv hmid hpost]
    rw [replaceFirst_noop_shapeB pre meta.title mid post meta.sourceGuess
      (by decide) (by decide) (by decide) hpre hv hmid hpost]
    rw [replaceFirst_noop_shapeB pre meta.title mid post
      (if jsTrim meta.text = "" then "_NO ARTICLE TEXT EXTRACTED_" else jsTrim meta.text)
      (by decide) (by decide) (by decide) hpre hv hmid hpost]
    rfl
  · show replaceFirst (replaceFirst (replaceFirst (replaceFirst (replaceFirst (replaceFirst
        (pre ++ "{authors}" ++ mid ++ "{authors}" ++ post) "{url}" url)
        "{title}" meta.title)
        "{authors}" (joinWith ", " meta.authors))
        "{published}" meta.published)
        "{source}" meta.sourceGuess)
        "{article_text}"
        (if jsTrim meta.text = "" then "_NO ARTICLE TEXT EXTRACTED_" else jsTrim meta.text) =
      pre ++ phValue url meta "{authors}" ++ mid ++ "{authors}" ++ post
    rw [replaceFirst_noop_shapeA pre mid post url
      (by decide) (by decide) (by decide) hpre hmid hpost]
    rw [replaceFirst_noop_shapeA pre mid post meta.title
      (by decide) (by decide) (by decide) hpre hmid hpost]
    rw [replaceFirst_hit_shapeA pre mid post (joinWith ", " meta.authors) (by decide) hpre]
    rw [replaceFirst_noop_shapeB pre (joinWith ", " meta.authors) mid post meta.published
      (by decide) (by decide) (by decide) hpre hv hmid hpost]
    rw [replaceFirst_noop_shapeB pre (joinWith ", " meta.authors) mid post meta.sourceGuess
      (by decide) (by decide) (by decide) hpre hv hmid hpost]
    rw [replaceFirst_noop_shapeB pre (joinWith ", " meta.authors) mid post
      (if jsTrim meta.text = "" then "_NO ARTICLE TEXT EXTRACTED_" else jsTrim meta.text)
      (by decide) (by decide) (by decide) hpre hv hmid hpost]
    rfl
  · show replaceFirst (replaceFirst (replaceFirst (replaceFirst (replaceFirst (replaceFirst
        (pre ++ "{published}" ++ mid ++ "{published}" ++ post) "{url}" url)
        "{title}" meta.title)
        "{authors}" (joinWith ", " meta.authors))
        "{published}" meta.published)
        "{source}" meta.sourceGuess)
        "{article_text}"
        (if jsTrim meta.text = "" then "_NO ARTICLE TEXT EXTRACTED_" else jsTrim meta.text) =
      pre ++ phValue url meta "{published}" ++ mid ++ "{published}" ++ post
    rw [replaceFirst_noop_shapeA pre mid post url
      (by decide) (by decide) (by decide) hpre hmid hpost]
    rw [replaceFirst_noop_shapeA pre mid post meta.title
      (by decide) (by decide) (by decide) hpre hmid hpost]
    rw [replaceFirst_noop_shapeA pre mid post (joinWith ", " meta.authors)
      (by decide) (by decide) (by decide) hpre hmid hpost]
    rw [replaceFirst_hit_shapeA pre mid post meta.published (by decide) hpre]
    rw [replaceFirst_noop_shapeB pre meta.published mid post meta.sourceGuess
      (by decide) (by decide) (by decide) hpre hv hmid hpost]
    rw [replaceFirst_noop_shapeB pre meta.published mid post
      (if jsTrim meta.text = "" then "_NO ARTICLE TEXT EXTRACTED_" else jsTrim meta.text)
      (by decide) (by decide) (by decide) hpre hv hmid hpost]
    rfl
  · show replaceFirst (replaceFirst (replaceFirst (replaceFirst (replaceFirst (replaceFirst
        (pre ++ "{source}" ++ mid ++ "{source}" ++ post) "{url}" url)
        "{title}" meta.title)
        "{authors}" (joinWith ", " meta.authors))
        "{published}" meta.published)
        "{source}" meta.sourceGuess)
        "{article_text}"
        (if jsTrim meta.text = "" then "_NO ARTICLE TEXT EXTRACTED_" else jsTrim meta.text) =
      pre ++ phValue url meta "{source}" ++ mid ++ "{source}" ++ post
    rw [replaceFirst_noop_shapeA pre mid post url
      (by decide) (by decide) (by decide) hpre hmid hpost]
    rw [replaceFirst_noop_shapeA pre mid post meta.title
      (by decide) (by decide) (by decide) hpre hmid hpost]
    rw [replaceFirst_noop_shapeA pre mid post (joinWith ", " meta.authors)
      (by decide) (by decide) (by decide) hpre hmid hpost]
    rw [replaceFirst_noop_shapeA pre mid post meta.published
      (by decide) (by decide) (by decide) hpre hmid hpost]
    rw [replaceFirst_hit_shapeA pre mid post meta.sourceGuess (by decide) hpre]
    rw [replaceFirst_noop_shapeB pre meta.sourceGuess mid post
      (if jsTrim meta.text = "" then "_NO ARTICLE TEXT EXTRACTED_" else jsTrim meta.text)
      (by decide) (by decide) (by decide) hpre hv hmid hpost]
    rfl
  · show replaceFirst (replaceFirst (replaceFirst (replaceFirst (replaceFirst (replaceFirst
        (pre ++ "{article_text}" ++ mid ++ "{article_text}" ++ post) "{url}" url)
        "{title}" meta.title)
        "{authors}" (joinWith ", " meta.authors))
        "{published}" meta.published)
        "{source}" meta.sourceGuess)
        "{article_text}"
        (if jsTrim meta.text = "" then "_NO ARTICLE TEXT EXTRACTED_" else jsTrim meta.text) =
      pre ++ phValue url meta "{article_text}" ++ mid ++ "{article_text}" ++ post
    rw [replaceFirst_noop_shapeA pre mid post url
      (by decide) (by decide) (by decide) hpre hmid hpost]
    rw [replaceFirst_noop_shapeA pre mid post meta.title
      (by decide) (by decide) (by decide) hpre hmid hpost]
    rw [replaceFirst_noop_shapeA pre mid post (joinWith ", " meta.authors)
      (by decide) (by decide) (by decide) hpre hmid hpost]
    rw [replaceFirst_noop_shapeA pre mid post meta.published
      (by decide) (by decide) (by decide) hpre hmid hpost]
    rw [replaceFirst_noop_shapeA pre mid post meta.sourceGuess
      (by decide) (by decide) (by decide) hpre hmid hpost]
    rw [replaceFirst_hit_shapeA pre mid post
      (if jsTrim meta.text = "" then "_NO ARTICLE TEXT EXTRACTED_" else jsTrim meta.text)
      (by decide) hpre]
    rfl

/-- C10: `buildPrompt` replaces only the first occurrence of each
placeholder.  Whenever the template is `pre ++ p ++ mid ++ p ++ post` for a
placeholder `p`, with `pre`, `mid`, `post` and the substituted value free of
`\x7b`, the prompt is `pre ++ value ++ mid ++ p ++ post` plus the default-tags
suffix: the second occurrence of `p` survives verbatim, because every
JavaScript `String.prototype.replace` call with a string pattern rewrites at
most its first match. -/
theorem buildPrompt_first_occurrence_only {p : String} (hp : p ∈ placeholderList)
    (url : String) (meta : PromptMeta) (defaultTags : Option (String ⊕ List String))
    (pre mid post : String)
    (hpre : braceFreeB pre.data = true) (hmid : braceFreeB mid.data = true)
    (hpost : braceFreeB post.data = true)
    (hv : braceFreeB (phValue url meta p).data = true) :
    buildPrompt url meta defaultTags (pre ++ p ++ mid ++ p ++ post) =
      pre ++ phValue url meta p ++ mid ++ p ++ post ++ tagsSuffix defaultTags := by
  rw [buildPrompt_eq_base_suffix,
    substitute_first_occurrence hp url meta pre mid post hpre hmid hpost hv]

theorem buildPrompt_first_occurrence_only_witness :
    buildPrompt "https://x.io/a" ⟨"T", ["A"], "2024", "body", "x.io"⟩ none
        ("Analyze " ++ "{url}" ++ " now; " ++ "{url}" ++ " end") =
      "Analyze " ++ "https://x.io/a" ++ " now; " ++ "{url}" ++ " end" ++ tagsSuffix none :=
  buildPrompt_first_occurrence_only (p := "{url}") (by decide) "https://x.io/a"
    ⟨"T", ["A"], "2024", "body", "x.io"⟩ none "Analyze " " now; " " end"
    (by decide) (by decide) (by decide) (by decide)
